import Mathlib

/-!
# Note / NoteNativeImplementations / EnumerableImpl.cpp

A shallow embedding of the native routine `hyper_iterator_cpy_UNMANAGED`
(the parallel range copier) and of its two helpers
`copy_internal_partition` and `internal_thread_forker`.

Modelling conventions.

* A buffer of `long` is a `List Int`; a pointer `p + k` into it is the pair of
  the list and the element index `k`.  The two buffers handed to the routine
  are the two fields of `Mem`, so they never alias.
* An access outside a buffer and an integer division by zero are faults; a
  faulting computation returns `Except.error`.
* `unsigned` arithmetic is arithmetic on `Nat` reduced modulo `2 ^ 32`.
* `len`, `src_idx`, `dest_idx` are `int` parameters; the development is about
  non-negative values, which are natural numbers not above `INT_MAX`.
* The worker threads all write under the one mutex `mu`, so their write
  phases happen one after the other; `join_threads` runs them in the order of
  the list it is given, the spawn order inside the routine, and
  `join_threads_perm` shows that every other order has the same outcome.
-/

set_option linter.unusedVariables false

namespace Note

/-! ## Constants -/

/-- The constant `THREAD_CAP` of line 7. -/
def THREAD_CAP : Nat := 50

/-- The constant `THREAD_MIN` of line 8. -/
def THREAD_MIN : Nat := 1

/-- The largest value of the `int` parameter `len`. -/
def INT_MAX : Nat := 2147483647

/-- The modulus of `unsigned` arithmetic. -/
def UINT_MOD : Nat := 4294967296

/-- Width in bytes of one buffer element, `sizeof(*src)` for `long* src`; the
interface description fixes the elements as 64-bit integers. -/
def sizeof_long : Nat := 8

/-! ## Faults and memory -/

/-- The ways in which the routine can go wrong. -/
inductive Fault where
  | div_by_zero
  | out_of_bounds
deriving DecidableEq, Repr

/-- The two caller-owned buffers the routine is given. -/
structure Mem where
  src : List Int
  dst : List Int
deriving DecidableEq, Repr

/-- The arguments one worker thread is started with on line 49: the private
snapshot `iso_src`, the element count and the offset. -/
structure Job where
  iso_src : List Int
  partition_rw : Nat
  offset : Nat
deriving DecidableEq, Repr

/-! ## Worker count (lines 23 to 31) -/

/-- The value of `(short) log(len)`: the natural logarithm of `len`, truncated.
For `1 ≤ len ≤ INT_MAX` it is the `k` with `e ^ k ≤ len < e ^ (k + 1)`; the
bounds below are the integers `⌈e ^ (k + 1)⌉` (`log_trunc_eq_floor_log` proves
the agreement with the real logarithm).  No integer of that range is closer
than `2e-10` to a power of `e` in relative terms, so the rounding of the
double-precision `log` cannot change the truncated value.
For `len = 0` the C library returns `-∞`, whose conversion to `short` is not
defined by the language; x86 code yields `0` there, the value taken here. -/
def log_trunc (len : Nat) : Nat :=
  if len < 3 then 0
  else if len < 8 then 1
  else if len < 21 then 2
  else if len < 55 then 3
  else if len < 149 then 4
  else if len < 404 then 5
  else if len < 1097 then 6
  else if len < 2981 then 7
  else if len < 8104 then 8
  else if len < 22027 then 9
  else if len < 59875 then 10
  else if len < 162755 then 11
  else if len < 442414 then 12
  else if len < 1202605 then 13
  else if len < 3269018 then 14
  else if len < 8886111 then 15
  else if len < 24154953 then 16
  else if len < 65659970 then 17
  else if len < 178482301 then 18
  else if len < 485165196 then 19
  else if len < 1318815735 then 20
  else 21

/-- The local `num_threads` after lines 23 to 31:
`(short) log(len) * 2`, where the cast applies to `log(len)` alone, then `0`
replaced by `THREAD_MIN` and anything above `THREAD_CAP` by `THREAD_CAP`. -/
def num_threads (len : Nat) : Nat :=
  let n := log_trunc len * 2
  let n := if n = 0 then THREAD_MIN else n
  if n > THREAD_CAP then THREAD_CAP else n

/-! ## Partition size (lines 33 to 36) -/

/-- Lines 33 and 34: `len / num_threads` is an integer division, so the
conversion to `double`, `floorl` and the cast to `unsigned` keep its value. -/
def thread_def_partition (len n : Nat) : Nat := len / n

/-- Line 36: `len % 2 == 0 && (len / thread_def_partition) % 2 != 0`.  The
right operand is evaluated only when the left one holds, and divides by
`thread_def_partition`. -/
def obtuse_partition (len part : Nat) : Except Fault Bool :=
  if len % 2 = 0 then
    if part = 0 then .error .div_by_zero
    else .ok ((len / part) % 2 != 0)
  else .ok false

/-- The value of the uneven-split test of line 36 for a call with `len`. -/
def uneven_split (len : Nat) : Bool :=
  decide (len % 2 = 0) &&
    (len / thread_def_partition len (num_threads len)) % 2 != 0

/-! ## The two helpers (lines 60 to 70) -/

/-- `memcpy(d + d_off, s + s_off, bytes)` on buffers of `long`: the whole
elements that `bytes` spans are copied; both ranges must lie inside their
buffers. -/
def memcpy (d : List Int) (d_off : Nat) (s : List Int) (s_off : Nat) (bytes : Nat) :
    Except Fault (List Int) :=
  let cnt := bytes / sizeof_long
  if s_off + cnt ≤ s.length ∧ d_off + cnt ≤ d.length then
    .ok (d.take d_off ++ ((s.drop s_off).take cnt ++ d.drop (d_off + cnt)))
  else .error .out_of_bounds

/-- The `unsigned partition_as_bytes = partition_rw * sizeof(*src)` of lines 61
and 67. -/
def partition_as_bytes (partition_rw : Nat) : Nat :=
  (partition_rw * sizeof_long) % UINT_MOD

/-- Lines 60 to 63: the snapshot phase; returns the new `partitioned_dst`. -/
def copy_internal_partition (src partitioned_dst : List Int) (partition_rw offset : Nat) :
    Except Fault (List Int) :=
  memcpy partitioned_dst 0 src offset (partition_as_bytes partition_rw)

/-- Lines 65 to 70: the write phase of one worker; returns the new `dst`. -/
def internal_thread_forker (src dst : List Int) (partition_rw offset : Nat) :
    Except Fault (List Int) :=
  memcpy dst offset src 0 (partition_as_bytes partition_rw)

/-! ## The routine (lines 18 to 58) -/

/-- The loop of lines 40 to 51, with `k` iterations left, loop counter `i`,
and the current `thread_def_partition` and `offset`.  Each iteration
allocates `iso_src` (`new long[...]`, contents never read before being
written, taken as zeroes), snapshots into it, records the thread it starts and
advances `offset`. -/
def fork_loop (l_src : List Int) (len n : Nat) (obtuse : Bool) :
    Nat → Nat → Nat → Nat → Except Fault (List Job)
  | 0, _, _, _ => .ok []
  | k + 1, i, part, offset =>
    let part := if i = n - 1 ∧ obtuse = true then (len + UINT_MOD - offset) % UINT_MOD else part
    match copy_internal_partition l_src (List.replicate part 0) part offset with
    | .error e => .error e
    | .ok iso_src =>
      match fork_loop l_src len n obtuse k (i + 1) part ((offset + part) % UINT_MOD) with
      | .error e => .error e
      | .ok js => .ok ({ iso_src := iso_src, partition_rw := part, offset := offset } :: js)

/-- The worker threads run to completion (they are joined on lines 53 to 55);
each runs `internal_thread_forker` on the shared destination.  A thread may
start writing while the loop is still taking later snapshots; the snapshots
read `src` only, which no thread writes, so they are not affected. -/
def join_threads (l_dst : List Int) : List Job → Except Fault (List Int)
  | [] => .ok l_dst
  | j :: js =>
    match internal_thread_forker j.iso_src l_dst j.partition_rw j.offset with
    | .error e => .error e
    | .ok d => join_threads d js

/-- The write phase of one more thread, applied to the outcome so far; a
schedule of the write phases is a list of threads folded with this step. -/
def thread_step (acc : Except Fault (List Int)) (j : Job) : Except Fault (List Int) :=
  match acc with
  | .error e => .error e
  | .ok d => internal_thread_forker j.iso_src d j.partition_rw j.offset

/-- The threads that a call starts, in spawn order. -/
def spawned (l_src : List Int) (len : Nat) : Except Fault (List Job) :=
  match obtuse_partition len (thread_def_partition len (num_threads len)) with
  | .error e => .error e
  | .ok ob =>
    fork_loop l_src len (num_threads len) ob (num_threads len) 0
      (thread_def_partition len (num_threads len)) 0

/-- The partitions `(offset, count)` of a list of started threads. -/
def partitions (js : List Job) : List (Nat × Nat) :=
  js.map fun j => (j.offset, j.partition_rw)

/-- The number of leading elements that the started threads write: the end of
the last partition, which is `len` when the last thread is given `len - offset`
and `n` times the common partition size otherwise. -/
def copied_upto (len n : Nat) (ob : Bool) : Nat :=
  if ob = true then len else n * (len / n)

/-- The partitions `(offset, count)` of iterations `i, ..., i + k - 1` of a loop
run with `n` threads, common partition size `len / n` and uneven-split flag
`ob`, in closed form. -/
def partition_plan (len n : Nat) (ob : Bool) (i k : Nat) : List (Nat × Nat) :=
  (List.range' i k).map fun j =>
    (j * (len / n), if j = n - 1 ∧ ob = true then len - (n - 1) * (len / n) else len / n)

/-- The clamp as the specification words it: a result of `0` becomes `1`, a
result above `50` becomes `50`. -/
def spec_clamp (r : Int) : Int :=
  if r = 0 then 1 else if r > 50 then 50 else r

/-- The routine `hyper_iterator_cpy_UNMANAGED(src, src_idx, dst, dest_idx, len)`.
Neither `src_idx` nor `dest_idx` occurs in its body. -/
def hyper_iterator_cpy_UNMANAGED (m : Mem) (src_idx dest_idx len : Nat) : Except Fault Mem :=
  match spawned m.src len with
  | .error e => .error e
  | .ok js =>
    match join_threads m.dst js with
    | .error e => .error e
    | .ok d => .ok { src := m.src, dst := d }

/-! ## Facts about the worker count -/

/-- The value of `log_trunc` on each of its twenty-two intervals. -/
theorem log_trunc_spec (len : Nat) :
    (0 ≤ len ∧ len < 3 ∧ log_trunc len = 0) ∨
    (3 ≤ len ∧ len < 8 ∧ log_trunc len = 1) ∨
    (8 ≤ len ∧ len < 21 ∧ log_trunc len = 2) ∨
    (21 ≤ len ∧ len < 55 ∧ log_trunc len = 3) ∨
    (55 ≤ len ∧ len < 149 ∧ log_trunc len = 4) ∨
    (149 ≤ len ∧ len < 404 ∧ log_trunc len = 5) ∨
    (404 ≤ len ∧ len < 1097 ∧ log_trunc len = 6) ∨
    (1097 ≤ len ∧ len < 2981 ∧ log_trunc len = 7) ∨
    (2981 ≤ len ∧ len < 8104 ∧ log_trunc len = 8) ∨
    (8104 ≤ len ∧ len < 22027 ∧ log_trunc len = 9) ∨
    (22027 ≤ len ∧ len < 59875 ∧ log_trunc len = 10) ∨
    (59875 ≤ len ∧ len < 162755 ∧ log_trunc len = 11) ∨
    (162755 ≤ len ∧ len < 442414 ∧ log_trunc len = 12) ∨
    (442414 ≤ len ∧ len < 1202605 ∧ log_trunc len = 13) ∨
    (1202605 ≤ len ∧ len < 3269018 ∧ log_trunc len = 14) ∨
    (3269018 ≤ len ∧ len < 8886111 ∧ log_trunc len = 15) ∨
    (8886111 ≤ len ∧ len < 24154953 ∧ log_trunc len = 16) ∨
    (24154953 ≤ len ∧ len < 65659970 ∧ log_trunc len = 17) ∨
    (65659970 ≤ len ∧ len < 178482301 ∧ log_trunc len = 18) ∨
    (178482301 ≤ len ∧ len < 485165196 ∧ log_trunc len = 19) ∨
    (485165196 ≤ len ∧ len < 1318815735 ∧ log_trunc len = 20) ∨
    (1318815735 ≤ len ∧ log_trunc len = 21) := by
  by_cases h1 : len < 3
  · left
    exact ⟨by omega, h1, by simp only [log_trunc, h1, if_true, if_false]⟩
  by_cases h2 : len < 8
  · iterate 1 right
    left
    exact ⟨by omega, h2, by simp only [log_trunc, h1, h2, if_true, if_false]⟩
  by_cases h3 : len < 21
  · iterate 2 right
    left
    exact ⟨by omega, h3, by simp only [log_trunc, h1, h2, h3, if_true, if_false]⟩
  by_cases h4 : len < 55
  · iterate 3 right
    left
    exact ⟨by omega, h4, by simp only [log_trunc, h1, h2, h3, h4, if_true, if_false]⟩
  by_cases h5 : len < 149
  · iterate 4 right
    left
    exact ⟨by omega, h5, by simp only [log_trunc, h1, h2, h3, h4, h5, if_true, if_false]⟩
  by_cases h6 : len < 404
  · iterate 5 right
    left
    exact ⟨by omega, h6, by simp only [log_trunc, h1, h2, h3, h4, h5, h6, if_true, if_false]⟩
  by_cases h7 : len < 1097
  · iterate 6 right
    left
    exact ⟨by omega, h7, by simp only [log_trunc, h1, h2, h3, h4, h5, h6, h7, if_true, if_false]⟩
  by_cases h8 : len < 2981
  · iterate 7 right
    left
    exact ⟨by omega, h8, by simp only [log_trunc, h1, h2, h3, h4, h5, h6, h7, h8, if_true, if_false]⟩
  by_cases h9 : len < 8104
  · iterate 8 right
    left
    exact ⟨by omega, h9, by simp only [log_trunc, h1, h2, h3, h4, h5, h6, h7, h8, h9, if_true, if_false]⟩
  by_cases h10 : len < 22027
  · iterate 9 right
    left
    exact ⟨by omega, h10, by simp only [log_trunc, h1, h2, h3, h4, h5, h6, h7, h8, h9, h10, if_true, if_false]⟩
  by_cases h11 : len < 59875
  · iterate 10 right
    left
    exact ⟨by omega, h11, by simp only [log_trunc, h1, h2, h3, h4, h5, h6, h7, h8, h9, h10, h11, if_true, if_false]⟩
  by_cases h12 : len < 162755
  · iterate 11 right
    left
    exact ⟨by omega, h12, by simp only [log_trunc, h1, h2, h3, h4, h5, h6, h7, h8, h9, h10, h11, h12, if_true, if_false]⟩
  by_cases h13 : len < 442414
  · iterate 12 right
    left
    exact ⟨by omega, h13, by simp only [log_trunc, h1, h2, h3, h4, h5, h6, h7, h8, h9, h10, h11, h12, h13, if_true, if_false]⟩
  by_cases h14 : len < 1202605
  · iterate 13 right
    left
    exact ⟨by omega, h14, by simp only [log_trunc, h1, h2, h3, h4, h5, h6, h7, h8, h9, h10, h11, h12, h13, h14, if_true, if_false]⟩
  by_cases h15 : len < 3269018
  · iterate 14 right
    left
    exact ⟨by omega, h15, by simp only [log_trunc, h1, h2, h3, h4, h5, h6, h7, h8, h9, h10, h11, h12, h13, h14, h15, if_true, if_false]⟩
  by_cases h16 : len < 8886111
  · iterate 15 right
    left
    exact ⟨by omega, h16, by simp only [log_trunc, h1, h2, h3, h4, h5, h6, h7, h8, h9, h10, h11, h12, h13, h14, h15, h16, if_true, if_false]⟩
  by_cases h17 : len < 24154953
  · iterate 16 right
    left
    exact ⟨by omega, h17, by simp only [log_trunc, h1, h2, h3, h4, h5, h6, h7, h8, h9, h10, h11, h12, h13, h14, h15, h16, h17, if_true, if_false]⟩
  by_cases h18 : len < 65659970
  · iterate 17 right
    left
    exact ⟨by omega, h18, by simp only [log_trunc, h1, h2, h3, h4, h5, h6, h7, h8, h9, h10, h11, h12, h13, h14, h15, h16, h17, h18, if_true, if_false]⟩
  by_cases h19 : len < 178482301
  · iterate 18 right
    left
    exact ⟨by omega, h19, by simp only [log_trunc, h1, h2, h3, h4, h5, h6, h7, h8, h9, h10, h11, h12, h13, h14, h15, h16, h17, h18, h19, if_true, if_false]⟩
  by_cases h20 : len < 485165196
  · iterate 19 right
    left
    exact ⟨by omega, h20, by simp only [log_trunc, h1, h2, h3, h4, h5, h6, h7, h8, h9, h10, h11, h12, h13, h14, h15, h16, h17, h18, h19, h20, if_true, if_false]⟩
  by_cases h21 : len < 1318815735
  · iterate 20 right
    left
    exact ⟨by omega, h21, by simp only [log_trunc, h1, h2, h3, h4, h5, h6, h7, h8, h9, h10, h11, h12, h13, h14, h15, h16, h17, h18, h19, h20, h21, if_true, if_false]⟩
  iterate 21 right
  exact ⟨by omega, by simp only [log_trunc, h1, h2, h3, h4, h5, h6, h7, h8, h9, h10, h11, h12, h13, h14, h15, h16, h17, h18, h19, h20, h21, if_false]⟩

theorem log_trunc_le (len : Nat) : log_trunc len ≤ 21 := by
  have h := log_trunc_spec len
  omega

theorem log_trunc_mul_two_le_len (len : Nat) (h : 1 ≤ len) : log_trunc len * 2 ≤ len := by
  have h := log_trunc_spec len
  omega

theorem log_trunc_ge_of_large (len : Nat) (h : 536870912 ≤ len) : 20 ≤ log_trunc len := by
  have h := log_trunc_spec len
  omega

theorem num_threads_eq (len : Nat) :
    num_threads len = if log_trunc len = 0 then 1 else log_trunc len * 2 := by
  have h := log_trunc_le len
  simp only [num_threads, THREAD_MIN, THREAD_CAP]
  split_ifs <;> omega

theorem num_threads_pos (len : Nat) : 1 ≤ num_threads len := by
  rw [num_threads_eq]
  split_ifs <;> omega

theorem num_threads_le_42 (len : Nat) : num_threads len ≤ 42 := by
  have h := log_trunc_le len
  rw [num_threads_eq]
  split_ifs <;> omega

theorem num_threads_le_len (len : Nat) (h : 1 ≤ len) : num_threads len ≤ len := by
  have h1 := log_trunc_mul_two_le_len len h
  rw [num_threads_eq]
  split_ifs <;> omega

theorem num_threads_ge_of_large (len : Nat) (h : 536870912 ≤ len) : 40 ≤ num_threads len := by
  have h1 := log_trunc_ge_of_large len h
  rw [num_threads_eq]
  split_ifs <;> omega

/-! ## Agreement of `log_trunc` with the real logarithm -/

theorem exp_one_gt_d12 : (2718281828459 / 10 ^ 12 : ℝ) < Real.exp 1 := by
  have h := (abs_sub_le_iff.1 Real.exp_one_near_20).2
  have h2 : (363916618873 / 133877442384 : ℝ) - 1 / 10 ^ 20 ≤ Real.exp 1 := by linarith
  exact lt_of_lt_of_le (by norm_num) h2

theorem exp_one_lt_d12 : Real.exp 1 < (2718281828460 / 10 ^ 12 : ℝ) := by
  have h := (abs_sub_le_iff.1 Real.exp_one_near_20).1
  have h2 : Real.exp 1 ≤ (363916618873 / 133877442384 : ℝ) + 1 / 10 ^ 20 := by linarith
  exact lt_of_le_of_lt h2 (by norm_num)

theorem exp_gt_of_pow (k : ℕ) (hk : k ≠ 0) (c : ℝ)
    (h : c ≤ (2718281828459 / 10 ^ 12 : ℝ) ^ k) : c < Real.exp (k : ℝ) := by
  calc c ≤ (2718281828459 / 10 ^ 12 : ℝ) ^ k := h
    _ < Real.exp 1 ^ k := pow_lt_pow_left₀ exp_one_gt_d12 (by norm_num) hk
    _ = Real.exp (k : ℝ) := by rw [← Real.exp_nat_mul, mul_one]

theorem exp_lt_of_pow (k : ℕ) (hk : k ≠ 0) (c : ℝ)
    (h : (2718281828460 / 10 ^ 12 : ℝ) ^ k ≤ c) : Real.exp (k : ℝ) < c := by
  calc Real.exp (k : ℝ) = Real.exp 1 ^ k := by rw [← Real.exp_nat_mul, mul_one]
    _ < (2718281828460 / 10 ^ 12 : ℝ) ^ k :=
      pow_lt_pow_left₀ exp_one_lt_d12 (Real.exp_pos 1).le hk
    _ ≤ c := h

theorem exp_zero_le_one : Real.exp ((0 : ℕ) : ℝ) ≤ ((1 : ℕ) : ℝ) := by simp

theorem floor_log_eq (len k lo hi : ℕ) (hlo : lo ≤ len) (hhi : len < hi) (h1 : 1 ≤ len)
    (hexp_lo : Real.exp (k : ℝ) ≤ (lo : ℝ))
    (hexp_hi : (hi : ℝ) - 1 < Real.exp ((k + 1 : ℕ) : ℝ)) :
    ⌊Real.log (len : ℝ)⌋ = (k : ℤ) := by
  have hpos : (0 : ℝ) < (len : ℝ) := by exact_mod_cast h1
  rw [Int.floor_eq_iff]
  constructor
  · rw [Int.cast_natCast, Real.le_log_iff_exp_le hpos]
    exact le_trans hexp_lo (by exact_mod_cast hlo)
  · rw [Int.cast_natCast, Real.log_lt_iff_lt_exp hpos]
    have h2 : (len : ℝ) + 1 ≤ (hi : ℝ) := by exact_mod_cast hhi
    push_cast at hexp_hi
    linarith

/-- On the range of the `int` parameter, `log_trunc` is the integer part of the
natural logarithm. -/
theorem log_trunc_eq_floor_log (len : Nat) (h1 : 1 ≤ len) (h2 : len ≤ INT_MAX) :
    ⌊Real.log (len : ℝ)⌋ = (log_trunc len : ℤ) := by
  simp only [INT_MAX] at h2
  rcases log_trunc_spec len with
    ⟨_, h, e⟩ | ⟨l, h, e⟩ | ⟨l, h, e⟩ | ⟨l, h, e⟩ | ⟨l, h, e⟩ | ⟨l, h, e⟩ | ⟨l, h, e⟩ | ⟨l, h, e⟩ | ⟨l, h, e⟩ | ⟨l, h, e⟩ | ⟨l, h, e⟩ | ⟨l, h, e⟩ | ⟨l, h, e⟩ | ⟨l, h, e⟩ | ⟨l, h, e⟩ | ⟨l, h, e⟩ | ⟨l, h, e⟩ | ⟨l, h, e⟩ | ⟨l, h, e⟩ | ⟨l, h, e⟩ | ⟨l, h, e⟩ | ⟨l, e⟩
  · rw [e]
    exact floor_log_eq len 0 1 3 (by omega) (by omega) h1 exp_zero_le_one
      (exp_gt_of_pow 1 (by norm_num) (3 - 1) (by norm_num))
  · rw [e]
    exact floor_log_eq len 1 3 8 (by omega) (by omega) h1 (exp_lt_of_pow 1 (by norm_num) 3 (by norm_num)).le
      (exp_gt_of_pow 2 (by norm_num) (8 - 1) (by norm_num))
  · rw [e]
    exact floor_log_eq len 2 8 21 (by omega) (by omega) h1 (exp_lt_of_pow 2 (by norm_num) 8 (by norm_num)).le
      (exp_gt_of_pow 3 (by norm_num) (21 - 1) (by norm_num))
  · rw [e]
    exact floor_log_eq len 3 21 55 (by omega) (by omega) h1 (exp_lt_of_pow 3 (by norm_num) 21 (by norm_num)).le
      (exp_gt_of_pow 4 (by norm_num) (55 - 1) (by norm_num))
  · rw [e]
    exact floor_log_eq len 4 55 149 (by omega) (by omega) h1 (exp_lt_of_pow 4 (by norm_num) 55 (by norm_num)).le
      (exp_gt_of_pow 5 (by norm_num) (149 - 1) (by norm_num))
  · rw [e]
    exact floor_log_eq len 5 149 404 (by omega) (by omega) h1 (exp_lt_of_pow 5 (by norm_num) 149 (by norm_num)).le
      (exp_gt_of_pow 6 (by norm_num) (404 - 1) (by norm_num))
  · rw [e]
    exact floor_log_eq len 6 404 1097 (by omega) (by omega) h1 (exp_lt_of_pow 6 (by norm_num) 404 (by norm_num)).le
      (exp_gt_of_pow 7 (by norm_num) (1097 - 1) (by norm_num))
  · rw [e]
    exact floor_log_eq len 7 1097 2981 (by omega) (by omega) h1 (exp_lt_of_pow 7 (by norm_num) 1097 (by norm_num)).le
      (exp_gt_of_pow 8 (by norm_num) (2981 - 1) (by norm_num))
  · rw [e]
    exact floor_log_eq len 8 2981 8104 (by omega) (by omega) h1 (exp_lt_of_pow 8 (by norm_num) 2981 (by norm_num)).le
      (exp_gt_of_pow 9 (by norm_num) (8104 - 1) (by norm_num))
  · rw [e]
    exact floor_log_eq len 9 8104 22027 (by omega) (by omega) h1 (exp_lt_of_pow 9 (by norm_num) 8104 (by norm_num)).le
      (exp_gt_of_pow 10 (by norm_num) (22027 - 1) (by norm_num))
  · rw [e]
    exact floor_log_eq len 10 22027 59875 (by omega) (by omega) h1 (exp_lt_of_pow 10 (by norm_num) 22027 (by norm_num)).le
      (exp_gt_of_pow 11 (by norm_num) (59875 - 1) (by norm_num))
  · rw [e]
    exact floor_log_eq len 11 59875 162755 (by omega) (by omega) h1 (exp_lt_of_pow 11 (by norm_num) 59875 (by norm_num)).le
      (exp_gt_of_pow 12 (by norm_num) (162755 - 1) (by norm_num))
  · rw [e]
    exact floor_log_eq len 12 162755 442414 (by omega) (by omega) h1 (exp_lt_of_pow 12 (by norm_num) 162755 (by norm_num)).le
      (exp_gt_of_pow 13 (by norm_num) (442414 - 1) (by norm_num))
  · rw [e]
    exact floor_log_eq len 13 442414 1202605 (by omega) (by omega) h1 (exp_lt_of_pow 13 (by norm_num) 442414 (by norm_num)).le
      (exp_gt_of_pow 14 (by norm_num) (1202605 - 1) (by norm_num))
  · rw [e]
    exact floor_log_eq len 14 1202605 3269018 (by omega) (by omega) h1 (exp_lt_of_pow 14 (by norm_num) 1202605 (by norm_num)).le
      (exp_gt_of_pow 15 (by norm_num) (3269018 - 1) (by norm_num))
  · rw [e]
    exact floor_log_eq len 15 3269018 8886111 (by omega) (by omega) h1 (exp_lt_of_pow 15 (by norm_num) 3269018 (by norm_num)).le
      (exp_gt_of_pow 16 (by norm_num) (8886111 - 1) (by norm_num))
  · rw [e]
    exact floor_log_eq len 16 8886111 24154953 (by omega) (by omega) h1 (exp_lt_of_pow 16 (by norm_num) 8886111 (by norm_num)).le
      (exp_gt_of_pow 17 (by norm_num) (24154953 - 1) (by norm_num))
  · rw [e]
    exact floor_log_eq len 17 24154953 65659970 (by omega) (by omega) h1 (exp_lt_of_pow 17 (by norm_num) 24154953 (by norm_num)).le
      (exp_gt_of_pow 18 (by norm_num) (65659970 - 1) (by norm_num))
  · rw [e]
    exact floor_log_eq len 18 65659970 178482301 (by omega) (by omega) h1 (exp_lt_of_pow 18 (by norm_num) 65659970 (by norm_num)).le
      (exp_gt_of_pow 19 (by norm_num) (178482301 - 1) (by norm_num))
  · rw [e]
    exact floor_log_eq len 19 178482301 485165196 (by omega) (by omega) h1 (exp_lt_of_pow 19 (by norm_num) 178482301 (by norm_num)).le
      (exp_gt_of_pow 20 (by norm_num) (485165196 - 1) (by norm_num))
  · rw [e]
    exact floor_log_eq len 20 485165196 1318815735 (by omega) (by omega) h1 (exp_lt_of_pow 20 (by norm_num) 485165196 (by norm_num)).le
      (exp_gt_of_pow 21 (by norm_num) (1318815735 - 1) (by norm_num))
  · rw [e]
    exact floor_log_eq len 21 1318815735 2147483648 (by omega) (by omega) h1 (exp_lt_of_pow 21 (by norm_num) 1318815735 (by norm_num)).le
      (exp_gt_of_pow 22 (by norm_num) (2147483648 - 1) (by norm_num))

/-! ## Facts about `memcpy` and the two helpers -/

theorem partition_as_bytes_div (p : Nat) (h : p * 8 < UINT_MOD) :
    partition_as_bytes p / sizeof_long = p := by
  unfold partition_as_bytes sizeof_long
  rw [Nat.mod_eq_of_lt h]
  omega

/-- The snapshot of a partition that lies inside `src` is that slice of `src`. -/
theorem copy_internal_partition_ok (src : List Int) (p o : Nat)
    (hp : p * 8 < UINT_MOD) (ho : o + p ≤ src.length) :
    copy_internal_partition src (List.replicate p 0) p o = .ok ((src.drop o).take p) := by
  unfold copy_internal_partition memcpy
  simp only [partition_as_bytes_div p hp]
  rw [if_pos (by simp; omega)]
  simp

/-- The write phase of a worker holding the slice `[o, o + p)` of `src`, run on a
destination that already agrees with `src` below `o`. -/
theorem internal_thread_forker_ok (src d : List Int) (p o : Nat)
    (hp : p * 8 < UINT_MOD) (hs : o + p ≤ src.length) (hd : o + p ≤ d.length) :
    internal_thread_forker ((src.drop o).take p) (src.take o ++ d.drop o) p o
      = .ok (src.take (o + p) ++ d.drop (o + p)) := by
  unfold internal_thread_forker memcpy
  simp only [partition_as_bytes_div p hp]
  rw [if_pos (by simp; omega)]
  have h1 : (src.take o).length = o := by simp; omega
  congr 1
  rw [List.take_left' h1, List.drop_zero, List.take_take, Nat.min_self,
    ← List.drop_drop, List.drop_left' h1, List.drop_drop, List.take_add, List.append_assoc]

/-! ## The loop and the join -/

theorem copied_upto_le (len n : Nat) (ob : Bool) : copied_upto len n ob ≤ len := by
  unfold copied_upto
  split_ifs
  · exact le_rfl
  · exact Nat.mul_div_le len n

/-- Running the loop from iteration `i` and then the threads it started extends
the copied prefix of the destination to the end of the last partition. -/
theorem fork_join_aux (src d0 : List Int) (len n : Nat) (ob : Bool)
    (hs : len ≤ src.length) (hd : len ≤ d0.length) (hlen : len < UINT_MOD)
    (hb : (len / n) * 8 < UINT_MOD) (hl : (len - (n - 1) * (len / n)) * 8 < UINT_MOD) :
    ∀ k i part offset, i + k = n → (0 < k → part = len / n ∧ offset = i * (len / n)) →
      offset ≤ len →
      ∃ js, fork_loop src len n ob k i part offset = .ok js ∧
        join_threads (src.take offset ++ d0.drop offset) js
          = .ok (src.take (if k = 0 then offset else copied_upto len n ob)
              ++ d0.drop (if k = 0 then offset else copied_upto len n ob)) ∧
        partitions js = partition_plan len n ob i k := by
  intro k
  induction k with
  | zero =>
    intro i part offset _ _ _
    exact ⟨[], rfl, by simp [join_threads], by simp [partitions, partition_plan]⟩
  | succ k ih =>
    intro i part offset hik hinv hol
    obtain ⟨hpart, hoff⟩ := hinv (by omega)
    have hnb : n * (len / n) ≤ len := Nat.mul_div_le len n
    have hi1 : (i + 1) * (len / n) ≤ n * (len / n) := Nat.mul_le_mul_right _ (by omega)
    have hi2 : (i + 1) * (len / n) = i * (len / n) + len / n := by ring
    simp only [UINT_MOD] at hlen hb hl
    by_cases hlast : i = n - 1 ∧ ob = true
    · have hk : k = 0 := by omega
      subst hk
      have hoff2 : offset = (n - 1) * (len / n) := by rw [hoff, hlast.1]
      have hp : (len + 4294967296 - offset) % 4294967296 = len - offset := by omega
      have hp8 : (len - offset) * 8 < UINT_MOD := by rw [hoff2]; exact hl
      have hsn := copy_internal_partition_ok src (len - offset) offset hp8 (by omega)
      have hw := internal_thread_forker_ok src d0 (len - offset) offset hp8 (by omega) (by omega)
      have hfin : offset + (len - offset) = len := by omega
      rw [hfin] at hw
      refine ⟨[{ iso_src := (src.drop offset).take (len - offset),
                 partition_rw := len - offset, offset := offset }], ?_, ?_, ?_⟩
      · simp only [fork_loop, UINT_MOD, if_pos hlast, hp, hsn]
      · simp only [join_threads, hw, copied_upto, if_pos hlast.2]
        simp
      · have hi : n - 1 = i := hlast.1.symm
        simp [partitions, partition_plan, List.range'_succ, hlast.2, hi, hoff]
    · have hb8 : part * 8 < UINT_MOD := by rw [hpart]; exact hb
      have hle : offset + part ≤ len := by omega
      have hp : (offset + part) % 4294967296 = offset + part := by omega
      have hsn := copy_internal_partition_ok src part offset hb8 (by omega)
      have hw := internal_thread_forker_ok src d0 part offset hb8 (by omega) (by omega)
      obtain ⟨js, hjs, hjoin, hplan⟩ := ih (i + 1) part (offset + part) (by omega)
        (fun _ => ⟨hpart, by omega⟩) hle
      refine ⟨{ iso_src := (src.drop offset).take part,
                partition_rw := part, offset := offset } :: js, ?_, ?_, ?_⟩
      rotate_left 2
      · have hpl : partitions (Job.mk ((src.drop offset).take part) part offset :: js)
            = (offset, part) :: partitions js := rfl
        rw [hpl, hplan, partition_plan, partition_plan, List.range'_succ, List.map_cons,
          if_neg hlast, hoff, hpart]
      · simp only [fork_loop, UINT_MOD, if_neg hlast, hp, hsn, hjs]
      · simp only [join_threads, hw, hjoin]
        by_cases hk : k = 0
        · have hob : ob = false := by
            cases ob
            · rfl
            · exact absurd ⟨by omega, rfl⟩ hlast
          have hin : i + 1 = n := by omega
          have hcp : copied_upto len n ob = offset + part := by
            simp only [copied_upto, hob, Bool.false_eq_true, if_false]
            have hmul : n * (len / n) = (i + 1) * (len / n) := by rw [hin]
            omega
          simp [hk, hcp]
        · simp [hk]

/-! ## The whole call -/

theorem thread_def_partition_pos (len : Nat) (h : 1 ≤ len) :
    1 ≤ thread_def_partition len (num_threads len) := by
  unfold thread_def_partition
  exact (Nat.one_le_div_iff (num_threads_pos len)).2 (num_threads_le_len len h)

theorem obtuse_partition_eq (len : Nat) (h : 1 ≤ len) :
    obtuse_partition len (thread_def_partition len (num_threads len)) = .ok (uneven_split len) := by
  have hp := thread_def_partition_pos len h
  unfold obtuse_partition uneven_split
  by_cases h2 : len % 2 = 0
  · rw [if_pos h2, if_neg (by omega)]
    simp [h2]
  · rw [if_neg h2]
    simp [h2]

/-- The common partition size times the element width fits in `unsigned`. -/
theorem partition_bytes_fit (len : Nat) (h : len ≤ INT_MAX) :
    (len / num_threads len) * 8 < UINT_MOD := by
  simp only [INT_MAX, UINT_MOD] at *
  by_cases hl : len < 536870912
  · have := Nat.div_le_self len (num_threads len)
    omega
  · have hn := num_threads_ge_of_large len (by omega)
    have := Nat.div_le_div_left hn (by norm_num : 0 < 40) (a := len)
    omega

/-- The size of a last partition `len - offset` times the element width fits in
`unsigned`. -/
theorem last_partition_bytes_fit (len : Nat) (h : len ≤ INT_MAX) :
    (len - (num_threads len - 1) * (len / num_threads len)) * 8 < UINT_MOD := by
  simp only [INT_MAX, UINT_MOD] at *
  by_cases hl : len < 536870912
  · omega
  · have hn := num_threads_ge_of_large len (by omega)
    have hn2 := num_threads_le_42 len
    have h1 := Nat.div_le_div_left hn (by norm_num : 0 < 40) (a := len)
    have h2 := Nat.div_add_mod len (num_threads len)
    have h3 := Nat.mod_lt len (by omega : num_threads len > 0)
    have h4 : num_threads len * (len / num_threads len)
        = (num_threads len - 1) * (len / num_threads len) + len / num_threads len := by
      have : num_threads len = (num_threads len - 1) + 1 := by omega
      nth_rewrite 1 [this]
      ring
    omega

/-- A call with `1 ≤ len ≤ INT_MAX` on buffers of at least `len` elements
returns; it leaves `src` as it was and replaces the first `copied_upto`
elements of `dst` by those of `src`. -/
theorem hyper_iterator_cpy_eq (m : Mem) (src_idx dest_idx len : Nat)
    (h1 : 1 ≤ len) (h2 : len ≤ INT_MAX) (hs : len ≤ m.src.length) (hd : len ≤ m.dst.length) :
    hyper_iterator_cpy_UNMANAGED m src_idx dest_idx len
      = .ok { src := m.src,
              dst := m.src.take (copied_upto len (num_threads len) (uneven_split len))
                ++ m.dst.drop (copied_upto len (num_threads len) (uneven_split len)) } := by
  have hn := num_threads_pos len
  obtain ⟨js, hjs, hjoin, -⟩ := fork_join_aux m.src m.dst len (num_threads len) (uneven_split len)
    hs hd (by simp only [INT_MAX, UINT_MOD] at *; omega) (partition_bytes_fit len h2)
    (last_partition_bytes_fit len h2) (num_threads len) 0
    (thread_def_partition len (num_threads len)) 0 (by omega)
    (fun _ => ⟨rfl, by simp⟩) (by omega)
  have hk : ¬ num_threads len = 0 := by omega
  simp only [if_neg hk, List.take_zero, List.drop_zero, List.nil_append] at hjoin
  simp only [hyper_iterator_cpy_UNMANAGED, spawned, obtuse_partition_eq len h1, hjs, hjoin]

/-- The threads a valid call starts, and their partitions in closed form. -/
theorem spawned_eq (src : List Int) (len : Nat)
    (h1 : 1 ≤ len) (h2 : len ≤ INT_MAX) (hs : len ≤ src.length) :
    ∃ js, spawned src len = .ok js ∧
      partitions js = partition_plan len (num_threads len) (uneven_split len) 0 (num_threads len) := by
  obtain ⟨js, hjs, -, hplan⟩ := fork_join_aux src src len (num_threads len) (uneven_split len)
    hs hs (by simp only [INT_MAX, UINT_MOD] at *; omega) (partition_bytes_fit len h2)
    (last_partition_bytes_fit len h2) (num_threads len) 0
    (thread_def_partition len (num_threads len)) 0 (by omega)
    (fun _ => ⟨rfl, by simp⟩) (by omega)
  exact ⟨js, by simp only [spawned, obtuse_partition_eq len h1, hjs], hplan⟩

/-- An index lies in one of the planned partitions exactly when it is below the
end of the last one. -/
theorem mem_partition_plan_iff (len n : Nat) (ob : Bool) (hn : 1 ≤ n) (hb : 1 ≤ len / n)
    (x : Nat) :
    (∃ p ∈ partition_plan len n ob 0 n, p.1 ≤ x ∧ x < p.1 + p.2)
      ↔ x < copied_upto len n ob := by
  have hnb : n * (len / n) ≤ len := Nat.mul_div_le len n
  have hn1 : n * (len / n) = (n - 1) * (len / n) + len / n := by
    have : n = (n - 1) + 1 := by omega
    nth_rewrite 1 [this]
    ring
  constructor
  · rintro ⟨p, hp, h1, h2⟩
    simp only [partition_plan, List.mem_map, List.mem_range', ] at hp
    obtain ⟨j, ⟨t, ht, rfl⟩, rfl⟩ := hp
    simp only [zero_add, one_mul] at h1 h2
    have hj1 : (t + 1) * (len / n) ≤ n * (len / n) := Nat.mul_le_mul_right _ (by omega)
    have hj2 : (t + 1) * (len / n) = t * (len / n) + len / n := by ring
    unfold copied_upto
    by_cases hc : t = n - 1 ∧ ob = true
    · rw [if_pos hc] at h2
      rw [if_pos hc.2]
      rw [hc.1] at h2
      omega
    · rw [if_neg hc] at h2
      split_ifs <;> omega
  · intro hx
    unfold copied_upto at hx
    by_cases hlt : x < n * (len / n)
    · have hq : x / (len / n) < n := (Nat.div_lt_iff_lt_mul (by omega)).2 hlt
      have hq1 : x / (len / n) * (len / n) ≤ x := Nat.div_mul_le_self x (len / n)
      have hq2 : x < x / (len / n) * (len / n) + len / n := by
        have e1 := Nat.div_add_mod x (len / n)
        have e2 := Nat.mod_lt x (by omega : len / n > 0)
        have e3 := Nat.mul_comm (len / n) (x / (len / n))
        omega
      refine ⟨(x / (len / n) * (len / n),
        if x / (len / n) = n - 1 ∧ ob = true then len - (n - 1) * (len / n) else len / n), ?_, hq1, ?_⟩
      · simp only [partition_plan, List.mem_map, List.mem_range']
        exact ⟨x / (len / n), ⟨x / (len / n), hq, by simp⟩, rfl⟩
      · show x < x / (len / n) * (len / n) + _
        split_ifs <;> omega
    · have hob : ob = true := by
        cases ob
        · simp at hx; omega
        · rfl
      rw [if_pos hob] at hx
      refine ⟨((n - 1) * (len / n), len - (n - 1) * (len / n)), ?_, by omega, by omega⟩
      simp only [partition_plan, List.mem_map, List.mem_range']
      exact ⟨n - 1, ⟨n - 1, by omega, by simp⟩, by simp [hob]⟩

/-- The end of the last partition in terms of the remainder `len % n`. -/
theorem copied_upto_eq (len n : Nat) (ob : Bool) :
    copied_upto len n ob
      = if ob = true ∨ len % n = 0 then len else len - len % n := by
  have h := Nat.div_add_mod len n
  unfold copied_upto
  by_cases hob : ob = true
  · rw [if_pos hob, if_pos (Or.inl hob)]
  · rw [if_neg hob]
    by_cases hm : len % n = 0
    · rw [if_pos (Or.inr hm)]
      omega
    · rw [if_neg (by tauto)]
      omega

/-! ## Reading the result buffer -/

theorem getElem?_below_copied (src dst : List Int) (c i : Nat) (hc : c ≤ src.length)
    (hi : i < c) : (src.take c ++ dst.drop c)[i]? = src[i]? := by
  rw [List.getElem?_append_left (by simp; omega), List.getElem?_take_of_lt hi]

theorem getElem?_from_copied (src dst : List Int) (c i : Nat) (hc : c ≤ src.length)
    (hi : c ≤ i) : (src.take c ++ dst.drop c)[i]? = dst[i]? := by
  have hl : (src.take c).length = c := by simp; omega
  rw [List.getElem?_append_right (by omega), hl, List.getElem?_drop]
  congr 1
  omega

theorem length_after_copy (src dst : List Int) (c : Nat) (hc : c ≤ src.length)
    (hd : c ≤ dst.length) : (src.take c ++ dst.drop c).length = dst.length := by
  simp
  omega

/-! ## The started threads one by one -/

/-- Every thread the loop starts holds the snapshot that
`copy_internal_partition` took for its own count and offset. -/
theorem fork_loop_snapshot (src : List Int) (len n : Nat) (ob : Bool) :
    ∀ k i part offset js, fork_loop src len n ob k i part offset = .ok js →
      ∀ j ∈ js, copy_internal_partition src (List.replicate j.partition_rw 0)
        j.partition_rw j.offset = .ok j.iso_src := by
  intro k
  induction k with
  | zero =>
    intro i part offset js h j hj
    simp only [fork_loop, Except.ok.injEq] at h
    subst h
    simp at hj
  | succ k ih =>
    intro i part offset js h j hj
    simp only [fork_loop] at h
    split at h
    · cases h
    · rename_i iso hiso
      split at h
      · cases h
      · rename_i js1 hjs1
        simp only [Except.ok.injEq] at h
        subst h
        rcases List.mem_cons.1 hj with rfl | hmem
        · exact hiso
        · exact ih _ _ _ _ hjs1 j hmem

/-- The shape of a planned partition: it is the `t`-th one for some `t`. -/
theorem mem_partition_plan (len n : Nat) (ob : Bool) (p : Nat × Nat)
    (hp : p ∈ partition_plan len n ob 0 n) :
    ∃ t, t < n ∧ p.1 = t * (len / n) ∧
      p.2 = if t = n - 1 ∧ ob = true then len - (n - 1) * (len / n) else len / n := by
  simp only [partition_plan, List.mem_map, List.mem_range'] at hp
  obtain ⟨j, ⟨t, ht, rfl⟩, rfl⟩ := hp
  exact ⟨t, ht, by simp, by simp⟩

/-- The `i`-th planned partition. -/
theorem getElem?_partition_plan (len n : Nat) (ob : Bool) (i : Nat) (hi : i < n) :
    (partition_plan len n ob 0 n)[i]?
      = some (i * (len / n),
          if i = n - 1 ∧ ob = true then len - (n - 1) * (len / n) else len / n) := by
  simp [partition_plan, List.getElem?_map, List.getElem?_range' , hi]

theorem length_partition_plan (len n : Nat) (ob : Bool) :
    (partition_plan len n ob 0 n).length = n := by
  simp [partition_plan]

/-- What is known of each thread a valid call starts: its place in the plan,
that its byte count fits, that its range lies in `[0, len)` and that its
snapshot is the matching slice of `src`. -/
theorem spawned_job_facts (src : List Int) (len : Nat)
    (h1 : 1 ≤ len) (h2 : len ≤ INT_MAX) (hs : len ≤ src.length)
    (js : List Job) (hjs : spawned src len = .ok js) (j : Job) (hj : j ∈ js) :
    (∃ t, t < num_threads len ∧ j.offset = t * (len / num_threads len) ∧
      j.partition_rw = if t = num_threads len - 1 ∧ uneven_split len = true
        then len - (num_threads len - 1) * (len / num_threads len)
        else len / num_threads len) ∧
    j.partition_rw * 8 < UINT_MOD ∧ j.offset + j.partition_rw ≤ len ∧
    j.iso_src = (src.drop j.offset).take j.partition_rw := by
  obtain ⟨js0, h0, hplan⟩ := spawned_eq src len h1 h2 hs
  rw [hjs] at h0
  simp only [Except.ok.injEq] at h0
  subst h0
  have hmem : (j.offset, j.partition_rw) ∈ partitions js :=
    List.mem_map_of_mem (fun j : Job => (j.offset, j.partition_rw)) hj
  rw [hplan] at hmem
  obtain ⟨t, ht, ho, hc⟩ := mem_partition_plan _ _ _ _ hmem
  simp only at ho hc
  have hn := num_threads_pos len
  have hnb : num_threads len * (len / num_threads len) ≤ len := Nat.mul_div_le len _
  have ht1 : (t + 1) * (len / num_threads len) ≤ num_threads len * (len / num_threads len) :=
    Nat.mul_le_mul_right _ (by omega)
  have ht2 : (t + 1) * (len / num_threads len)
      = t * (len / num_threads len) + len / num_threads len := by ring
  have hfit1 := partition_bytes_fit len h2
  have hfit2 := last_partition_bytes_fit len h2
  have hbytes : j.partition_rw * 8 < UINT_MOD := by
    rw [hc]
    split_ifs
    · exact hfit2
    · exact hfit1
  have hrange : j.offset + j.partition_rw ≤ len := by
    rw [hc, ho]
    split_ifs with hl
    · rw [hl.1]
      have : (num_threads len - 1 + 1) * (len / num_threads len)
          = (num_threads len - 1) * (len / num_threads len) + len / num_threads len := by ring
      have e : num_threads len - 1 + 1 = num_threads len := by omega
      rw [e] at this
      omega
    · omega
  refine ⟨⟨t, ht, ho, hc⟩, hbytes, hrange, ?_⟩
  have hfl : fork_loop src len (num_threads len) (uneven_split len) (num_threads len) 0
      (thread_def_partition len (num_threads len)) 0 = .ok js := by
    have := hjs
    simp only [spawned, obtuse_partition_eq len h1] at this
    exact this
  have hsnap := fork_loop_snapshot src len _ _ _ _ _ _ js hfl j hj
  rw [copy_internal_partition_ok src j.partition_rw j.offset hbytes (by omega)] at hsnap
  simp only [Except.ok.injEq] at hsnap
  exact hsnap.symm

/-- The counts of the planned partitions add up to the end of the last one. -/
theorem sum_counts_partition_plan (len n : Nat) (ob : Bool) (hn : 1 ≤ n) :
    ((partition_plan len n ob 0 n).map Prod.snd).sum = copied_upto len n ob := by
  have hnb : n * (len / n) ≤ len := Nat.mul_div_le len n
  have hn1 : n * (len / n) = (n - 1) * (len / n) + len / n := by
    have : n = (n - 1) + 1 := by omega
    nth_rewrite 1 [this]
    ring
  have key : ∀ l : List Nat, (∀ j ∈ l, j < n - 1) →
      ((l.map fun j => (j * (len / n),
        if j = n - 1 ∧ ob = true then len - (n - 1) * (len / n) else len / n)).map
          Prod.snd).sum = l.length * (len / n) := by
    intro l
    induction l with
    | nil => intro _; simp
    | cons a l ih =>
      intro h
      have ha : a < n - 1 := h a (List.mem_cons_self a l)
      have hne : ¬ (a = n - 1 ∧ ob = true) := by omega
      simp only [List.map_cons, List.sum_cons, if_neg hne, List.length_cons]
      rw [ih (fun j hj => h j (List.mem_cons_of_mem a hj))]
      ring
  have hsplit : List.range' 0 n = List.range' 0 (n - 1) ++ [n - 1] := by
    have e : n = (n - 1) + 1 := by omega
    nth_rewrite 1 [e]
    rw [List.range'_concat]
    simp
  unfold partition_plan
  rw [hsplit, List.map_append, List.map_append, List.sum_append,
    key _ (fun j hj => by simp [List.mem_range'] at hj; omega)]
  simp only [List.length_range', List.map_cons, List.map_nil, List.sum_cons, List.sum_nil,
    true_and, copied_upto]
  have hd0 : 0 ≤ len / n := Nat.zero_le _
  cases ob
  · simp
    omega
  · simp
    omega

/-! ## Single writes and their order -/

theorem memcpy_ok_of_bounds (d s : List Int) (o so bytes : Nat)
    (h : so + bytes / sizeof_long ≤ s.length ∧ o + bytes / sizeof_long ≤ d.length) :
    ∃ r, memcpy d o s so bytes = .ok r ∧ r.length = d.length := by
  refine ⟨_, if_pos h, ?_⟩
  simp only [List.length_append, List.length_take, List.length_drop]
  generalize bytes / sizeof_long = c at h ⊢
  omega

theorem memcpy_error_of_bounds (d s : List Int) (o so bytes : Nat)
    (h : ¬ (so + bytes / sizeof_long ≤ s.length ∧ o + bytes / sizeof_long ≤ d.length)) :
    memcpy d o s so bytes = .error .out_of_bounds :=
  if_neg h

/-- The elements of the buffer a successful `memcpy` leaves. -/
theorem memcpy_getElem? (d s r : List Int) (o so bytes : Nat)
    (h : memcpy d o s so bytes = .ok r) (x : Nat) :
    r[x]? = if o ≤ x ∧ x < o + bytes / sizeof_long then s[so + (x - o)]? else d[x]? := by
  unfold memcpy at h
  simp only at h
  generalize bytes / sizeof_long = c at h ⊢
  split_ifs at h with hb
  simp only [Except.ok.injEq] at h
  subst h
  have hl : (d.take o).length = o := by
    simp only [List.length_take]
    omega
  by_cases h1 : x < o
  · rw [if_neg (by omega), List.getElem?_append_left (by omega), List.getElem?_take_of_lt h1]
  · rw [List.getElem?_append_right (by omega), hl]
    have hl2 : ((s.drop so).take c).length = c := by
      simp only [List.length_take, List.length_drop]
      omega
    by_cases h2 : x < o + c
    · rw [if_pos ⟨by omega, h2⟩, List.getElem?_append_left (by omega),
        List.getElem?_take_of_lt (by omega), List.getElem?_drop]
    · rw [if_neg (by omega), List.getElem?_append_right (by omega), hl2, List.getElem?_drop]
      congr 1
      omega

/-- Two writes into disjoint ranges of the same buffer can be made in either
order: the outcome, fault or buffer, is the same. -/
theorem memcpy_comm (d sx sy : List Int) (ox oy bx bz : Nat)
    (hdisj : ox + bx / sizeof_long ≤ oy ∨ oy + bz / sizeof_long ≤ ox) :
    (match memcpy d ox sx 0 bx with
      | .error e => Except.error e
      | .ok d1 => memcpy d1 oy sy 0 bz)
    = (match memcpy d oy sy 0 bz with
      | .error e => Except.error e
      | .ok d1 => memcpy d1 ox sx 0 bx) := by
  by_cases hx : 0 + bx / sizeof_long ≤ sx.length ∧ ox + bx / sizeof_long ≤ d.length
  · obtain ⟨d1, h1, hl1⟩ := memcpy_ok_of_bounds d sx ox 0 bx hx
    by_cases hy : 0 + bz / sizeof_long ≤ sy.length ∧ oy + bz / sizeof_long ≤ d.length
    · obtain ⟨d2, h2, hl2⟩ := memcpy_ok_of_bounds d sy oy 0 bz hy
      obtain ⟨d12, h12, -⟩ := memcpy_ok_of_bounds d1 sy oy 0 bz (by rw [hl1]; exact hy)
      obtain ⟨d21, h21, -⟩ := memcpy_ok_of_bounds d2 sx ox 0 bx (by rw [hl2]; exact hx)
      simp only [h1, h2, h12, h21]
      congr 1
      apply List.ext_getElem?
      intro x
      rw [memcpy_getElem? _ _ _ _ _ _ h12, memcpy_getElem? _ _ _ _ _ _ h1,
        memcpy_getElem? _ _ _ _ _ _ h21, memcpy_getElem? _ _ _ _ _ _ h2]
      split_ifs <;> first | rfl | omega
    · have e2 := memcpy_error_of_bounds d sy oy 0 bz hy
      have e12 := memcpy_error_of_bounds d1 sy oy 0 bz (by rw [hl1]; exact hy)
      simp only [h1, e2, e12]
  · have e1 := memcpy_error_of_bounds d sx ox 0 bx hx
    by_cases hy : 0 + bz / sizeof_long ≤ sy.length ∧ oy + bz / sizeof_long ≤ d.length
    · obtain ⟨d2, h2, hl2⟩ := memcpy_ok_of_bounds d sy oy 0 bz hy
      have e21 := memcpy_error_of_bounds d2 sx ox 0 bx (by rw [hl2]; exact hx)
      simp only [e1, h2, e21]
    · have e2 := memcpy_error_of_bounds d sy oy 0 bz hy
      simp only [e1, e2]

theorem foldl_thread_step_error (e : Fault) (js : List Job) :
    js.foldl thread_step (.error e) = .error e := by
  induction js with
  | nil => rfl
  | cons j js ih => exact ih

/-- Joining the threads in a given order is folding their write phases. -/
theorem join_threads_eq_foldl (d : List Int) (js : List Job) :
    join_threads d js = js.foldl thread_step (.ok d) := by
  induction js generalizing d with
  | nil => rfl
  | cons j js ih =>
    simp only [join_threads, List.foldl_cons, thread_step]
    cases h : internal_thread_forker j.iso_src d j.partition_rw j.offset with
    | error e => simp only [foldl_thread_step_error]
    | ok r => simp only [ih]

/-- The write phases of two threads with disjoint ranges commute. -/
theorem thread_step_comm (x y : Job)
    (hdisj : x.offset + partition_as_bytes x.partition_rw / sizeof_long ≤ y.offset ∨
      y.offset + partition_as_bytes y.partition_rw / sizeof_long ≤ x.offset)
    (z : Except Fault (List Int)) :
    thread_step (thread_step z x) y = thread_step (thread_step z y) x := by
  cases z with
  | error e => rfl
  | ok d =>
    exact memcpy_comm d x.iso_src y.iso_src x.offset y.offset
      (partition_as_bytes x.partition_rw) (partition_as_bytes y.partition_rw) hdisj

/-- Two threads of a valid call are the same thread or have disjoint ranges. -/
theorem spawned_disjoint (src : List Int) (len : Nat)
    (h1 : 1 ≤ len) (h2 : len ≤ INT_MAX) (hs : len ≤ src.length)
    (js : List Job) (hjs : spawned src len = .ok js) (x y : Job) (hx : x ∈ js) (hy : y ∈ js) :
    x = y ∨ x.offset + x.partition_rw ≤ y.offset ∨ y.offset + y.partition_rw ≤ x.offset := by
  obtain ⟨⟨t, ht, hxo, hxc⟩, -, -, hxs⟩ := spawned_job_facts src len h1 h2 hs js hjs x hx
  obtain ⟨⟨u, hu, hyo, hyc⟩, -, -, hys⟩ := spawned_job_facts src len h1 h2 hs js hjs y hy
  rcases Nat.lt_trichotomy t u with hlt | heq | hgt
  · right
    left
    have hne : ¬ (t = num_threads len - 1 ∧ uneven_split len = true) := by omega
    rw [if_neg hne] at hxc
    have hm : (t + 1) * (len / num_threads len) ≤ u * (len / num_threads len) :=
      Nat.mul_le_mul_right _ (by omega)
    have hr : (t + 1) * (len / num_threads len)
        = t * (len / num_threads len) + len / num_threads len := by ring
    omega
  · left
    subst heq
    cases x
    cases y
    simp only at hxo hxc hxs hyo hyc hys
    subst hxo hyo
    rw [← hyc] at hxc
    subst hxc
    rw [← hys] at hxs
    subst hxs
    rfl
  · right
    right
    have hne : ¬ (u = num_threads len - 1 ∧ uneven_split len = true) := by omega
    rw [if_neg hne] at hyc
    have hm : (u + 1) * (len / num_threads len) ≤ t * (len / num_threads len) :=
      Nat.mul_le_mul_right _ (by omega)
    have hr : (u + 1) * (len / num_threads len)
        = u * (len / num_threads len) + len / num_threads len := by ring
    omega

/-- Any order of the write phases of a valid call gives the outcome of the
spawn order. -/
theorem join_threads_perm (src dst : List Int) (len : Nat)
    (h1 : 1 ≤ len) (h2 : len ≤ INT_MAX) (hs : len ≤ src.length)
    (js : List Job) (hjs : spawned src len = .ok js) (js1 : List Job) (hp : js1.Perm js) :
    join_threads dst js1 = join_threads dst js := by
  rw [join_threads_eq_foldl, join_threads_eq_foldl]
  apply hp.foldl_eq'
  intro x hx y hy z
  have hx1 := hp.subset hx
  have hy1 := hp.subset hy
  rcases spawned_disjoint src len h1 h2 hs js hjs x y hx1 hy1 with rfl | hd
  · rfl
  · obtain ⟨-, hbx, -, -⟩ := spawned_job_facts src len h1 h2 hs js hjs x hx1
    obtain ⟨-, hbz, -, -⟩ := spawned_job_facts src len h1 h2 hs js hjs y hy1
    apply thread_step_comm
    rw [partition_as_bytes_div _ hbx, partition_as_bytes_div _ hbz]
    exact hd

/-! ## The claims -/

/-- Claim C1, as stated, fails: with `src = [1, 2]`, `src_idx = 1`, `dst = [0]`,
`dst_idx = 0`, `len = 1` (buffers large enough) the call returns with
`dst[0] = 1 = src[0]`, which is not the call-time value `2` of
`src[src_idx + 0]`. -/
theorem c1_start_index_counterexample :
    1 + 1 ≤ ([1, 2] : List Int).length ∧ 0 + 1 ≤ ([0] : List Int).length ∧
    hyper_iterator_cpy_UNMANAGED { src := [1, 2], dst := [0] } 1 0 1
      = .ok { src := [1, 2], dst := [1] } ∧
    ([1] : List Int)[0 + 0]? ≠ ([1, 2] : List Int)[1 + 0]? := by
  refine ⟨by decide, by decide, rfl, by decide⟩

/-- Claim C1, amended: for `1 ≤ len ≤ INT_MAX`, any `src_idx`, `dst_idx` and
buffers with at least `src_idx + len` and `dst_idx + len` elements, the call
returns, and `dst[i]` holds the call-time value of `src[i]` for every `i` below
the end of the last partition; the two start indices are not applied.  The end
of the last partition is `len` when the uneven-split condition holds or
`len mod worker_count = 0`. -/
theorem c1_copies_covered_range (m : Mem) (src_idx dst_idx len : Nat)
    (h1 : 1 ≤ len) (h2 : len ≤ INT_MAX)
    (hs : src_idx + len ≤ m.src.length) (hd : dst_idx + len ≤ m.dst.length) :
    ∃ m', hyper_iterator_cpy_UNMANAGED m src_idx dst_idx len = .ok m' ∧
      (∀ i, i < copied_upto len (num_threads len) (uneven_split len) →
        ∃ v, m.src[i]? = some v ∧ m'.dst[i]? = some v) ∧
      (uneven_split len = true ∨ len % num_threads len = 0 →
        copied_upto len (num_threads len) (uneven_split len) = len) := by
  have hc := copied_upto_le len (num_threads len) (uneven_split len)
  refine ⟨_, hyper_iterator_cpy_eq m src_idx dst_idx len h1 h2 (by omega) (by omega), ?_, ?_⟩
  · intro i hi
    have hlt : i < m.src.length := by omega
    refine ⟨m.src[i], List.getElem?_eq_getElem hlt, ?_⟩
    show (m.src.take _ ++ m.dst.drop _)[i]? = _
    rw [getElem?_below_copied m.src m.dst _ i (by omega) hi, List.getElem?_eq_getElem hlt]
  · intro h
    rw [copied_upto_eq, if_pos h]

/-- The amended claim C1 at `src = [1, 2]`, `src_idx = 1`, `dst = [0]`,
`dst_idx = 0`, `len = 1`. -/
theorem c1_copies_covered_range_witness :
    ∃ m', hyper_iterator_cpy_UNMANAGED { src := [1, 2], dst := [0] } 1 0 1 = .ok m' ∧
      (∀ i, i < copied_upto 1 (num_threads 1) (uneven_split 1) →
        ∃ v, ([1, 2] : List Int)[i]? = some v ∧ m'.dst[i]? = some v) ∧
      (uneven_split 1 = true ∨ 1 % num_threads 1 = 0 →
        copied_upto 1 (num_threads 1) (uneven_split 1) = 1) :=
  c1_copies_covered_range { src := [1, 2], dst := [0] } 1 0 1 (by decide) (by decide)
    (by decide) (by decide)

/-- Claim C2: with `src_idx = dst_idx = 0`, for every `1 ≤ len ≤ INT_MAX` and
buffers of at least `len` elements, the call returns; the indices that belong to
some partition are exactly those below `len` when the uneven-split condition
holds or `len mod worker_count = 0`, and those below
`len - len mod worker_count` otherwise; and `dst[i] = src[i]` for each of
them. -/
theorem c2_copy_from_zero (m : Mem) (len : Nat) (h1 : 1 ≤ len) (h2 : len ≤ INT_MAX)
    (hs : len ≤ m.src.length) (hd : len ≤ m.dst.length) :
    ∃ js m', spawned m.src len = .ok js ∧
      hyper_iterator_cpy_UNMANAGED m 0 0 len = .ok m' ∧
      (∀ i, (∃ p ∈ partitions js, p.1 ≤ i ∧ i < p.1 + p.2) ↔
        i < (if uneven_split len = true ∨ len % num_threads len = 0 then len
              else len - len % num_threads len)) ∧
      (∀ i, i < (if uneven_split len = true ∨ len % num_threads len = 0 then len
              else len - len % num_threads len) →
        ∃ v, m.src[i]? = some v ∧ m'.dst[i]? = some v) := by
  obtain ⟨js, hjs, hplan⟩ := spawned_eq m.src len h1 h2 hs
  have hc := copied_upto_le len (num_threads len) (uneven_split len)
  have hb : 1 ≤ len / num_threads len := thread_def_partition_pos len h1
  rw [← copied_upto_eq]
  refine ⟨js, _, hjs, hyper_iterator_cpy_eq m 0 0 len h1 h2 hs hd, ?_, ?_⟩
  · intro i
    rw [hplan]
    exact mem_partition_plan_iff len (num_threads len) (uneven_split len)
      (num_threads_pos len) hb i
  · intro i hi
    have hlt : i < m.src.length := by omega
    refine ⟨m.src[i], List.getElem?_eq_getElem hlt, ?_⟩
    show (m.src.take _ ++ m.dst.drop _)[i]? = _
    rw [getElem?_below_copied m.src m.dst _ i (by omega) hi, List.getElem?_eq_getElem hlt]

/-- Claim C2 at scenario A: `src = [1, ..., 10]`, `len = 10`, a zeroed `dst` of
ten elements; there the call returns with `dst` equal to `src`. -/
theorem c2_copy_from_zero_witness :
    hyper_iterator_cpy_UNMANAGED
        { src := [1, 2, 3, 4, 5, 6, 7, 8, 9, 10], dst := [0, 0, 0, 0, 0, 0, 0, 0, 0, 0] } 0 0 10
      = .ok { src := [1, 2, 3, 4, 5, 6, 7, 8, 9, 10], dst := [1, 2, 3, 4, 5, 6, 7, 8, 9, 10] } ∧
    ∃ js m', spawned [1, 2, 3, 4, 5, 6, 7, 8, 9, 10] 10 = .ok js ∧
      hyper_iterator_cpy_UNMANAGED
        { src := [1, 2, 3, 4, 5, 6, 7, 8, 9, 10], dst := [0, 0, 0, 0, 0, 0, 0, 0, 0, 0] } 0 0 10
        = .ok m' ∧
      (∀ i, (∃ p ∈ partitions js, p.1 ≤ i ∧ i < p.1 + p.2) ↔
        i < (if uneven_split 10 = true ∨ 10 % num_threads 10 = 0 then 10
              else 10 - 10 % num_threads 10)) ∧
      (∀ i, i < (if uneven_split 10 = true ∨ 10 % num_threads 10 = 0 then 10
              else 10 - 10 % num_threads 10) →
        ∃ v, ([1, 2, 3, 4, 5, 6, 7, 8, 9, 10] : List Int)[i]? = some v ∧ m'.dst[i]? = some v) :=
  ⟨rfl, c2_copy_from_zero
    { src := [1, 2, 3, 4, 5, 6, 7, 8, 9, 10], dst := [0, 0, 0, 0, 0, 0, 0, 0, 0, 0] } 10
    (by decide) (by decide) (by decide) (by decide)⟩

/-- Claim C3: for every `1 ≤ len ≤ INT_MAX` the worker count lies between `1`
and `THREAD_CAP = 50`; `len = 1` is the only such `len` with
`⌊ln(len) * 2⌋ = 0`, and for it the worker count is `1`. -/
theorem c3_worker_count_bounds (len : Nat) (h1 : 1 ≤ len) (h2 : len ≤ INT_MAX) :
    1 ≤ num_threads len ∧ num_threads len ≤ THREAD_CAP ∧
    (⌊Real.log (len : ℝ) * 2⌋ = 0 ↔ len = 1) ∧
    (len = 1 → num_threads len = 1) := by
  refine ⟨num_threads_pos len, ?_, ?_, ?_⟩
  · have := num_threads_le_42 len
    simp only [THREAD_CAP]
    omega
  · constructor
    · intro hf
      by_contra hne
      have h2le : (2 : ℝ) ≤ (len : ℝ) := by
        have : 2 ≤ len := by omega
        exact_mod_cast this
      have hlog : Real.log 2 ≤ Real.log (len : ℝ) := Real.log_le_log (by norm_num) h2le
      have hl2 := Real.log_two_gt_d9
      have hge : ((1 : ℤ) : ℝ) ≤ Real.log (len : ℝ) * 2 := by
        push_cast
        linarith
      have := Int.le_floor.2 hge
      omega
    · rintro rfl
      simp
  · rintro rfl
    rfl

/-- Claim C3 at `len = 1`. -/
theorem c3_worker_count_bounds_witness :
    1 ≤ num_threads 1 ∧ num_threads 1 ≤ THREAD_CAP ∧
    (⌊Real.log ((1 : ℕ) : ℝ) * 2⌋ = 0 ↔ 1 = 1) ∧
    (1 = 1 → num_threads 1 = 1) :=
  c3_worker_count_bounds 1 (by decide) (by decide)

/-- Claim C4, as stated, fails at `len = 5`: `⌊ln 5 * 2⌋ = 3`, which the clamp
leaves alone, while the code computes `((short) ln 5) * 2 = 1 * 2 = 2`. -/
theorem c4_floor_of_double_counterexample :
    1 ≤ 5 ∧ ⌊Real.log ((5 : ℕ) : ℝ) * 2⌋ = 3 ∧ num_threads 5 = 2 ∧
    (num_threads 5 : ℤ) ≠ spec_clamp ⌊Real.log ((5 : ℕ) : ℝ) * 2⌋ := by
  have hlog : Real.log ((5 : ℕ) : ℝ) * 2 = Real.log ((25 : ℕ) : ℝ) := by
    have h25 : ((25 : ℕ) : ℝ) = ((5 : ℕ) : ℝ) ^ 2 := by norm_num
    rw [h25, Real.log_pow]
    push_cast
    ring
  have hfl : ⌊Real.log ((5 : ℕ) : ℝ) * 2⌋ = 3 := by
    rw [hlog, log_trunc_eq_floor_log 25 (by decide) (by decide)]
    rfl
  refine ⟨by decide, hfl, by decide, ?_⟩
  rw [hfl]
  decide

/-- Claim C4, amended: for every `1 ≤ len ≤ INT_MAX` the worker count is
`2 * ⌊ln(len)⌋` (the cast to `short` truncates `ln(len)` before the doubling),
with a result of `0` replaced by `1` and a result above `50` replaced by `50`. -/
theorem c4_worker_count_formula (len : Nat) (h1 : 1 ≤ len) (h2 : len ≤ INT_MAX) :
    (num_threads len : ℤ) = spec_clamp (⌊Real.log (len : ℝ)⌋ * 2) := by
  have hle := log_trunc_le len
  rw [log_trunc_eq_floor_log len h1 h2, num_threads_eq]
  unfold spec_clamp
  split_ifs <;> push_cast <;> omega

/-- The amended claim C4 at `len = 5`. -/
theorem c4_worker_count_formula_witness :
    (num_threads 5 : ℤ) = spec_clamp (⌊Real.log ((5 : ℕ) : ℝ)⌋ * 2) :=
  c4_worker_count_formula 5 (by decide) (by decide)

/-- Claim C5 fails on the code at `len = 3`: two threads are started with the
partitions `(0, 1)` and `(1, 1)`, so index `2` of `[0, 3)` is in no partition and
`dst[2]` keeps its old value. -/
theorem c5_partitions_miss_tail :
    (spawned [1, 2, 3] 3).map partitions = .ok [(0, 1), (1, 1)] ∧
    hyper_iterator_cpy_UNMANAGED { src := [1, 2, 3], dst := [0, 0, 0] } 0 0 3
      = .ok { src := [1, 2, 3], dst := [1, 2, 0] } :=
  ⟨rfl, rfl⟩

/-- Claim C6, as stated, fails: with `src = [7]`, `dst = [0, 0]`, `src_idx = 0`,
`dst_idx = 1`, `len = 1` the call writes `dst[0]`, an index outside
`[dst_idx, dst_idx + len) = [1, 2)`. -/
theorem c6_frame_counterexample :
    0 + 1 ≤ ([7] : List Int).length ∧ 1 + 1 ≤ ([0, 0] : List Int).length ∧
    hyper_iterator_cpy_UNMANAGED { src := [7], dst := [0, 0] } 0 1 1
      = .ok { src := [7], dst := [7, 0] } ∧
    ¬ (1 ≤ 0 ∧ 0 < 1 + 1) ∧
    ([7, 0] : List Int)[0]? ≠ ([0, 0] : List Int)[0]? := by
  refine ⟨by decide, by decide, rfl, by decide, by decide⟩

/-- Claim C6, amended: for `1 ≤ len ≤ INT_MAX` and buffers with at least
`src_idx + len` and `dst_idx + len` elements, the call returns, `src` is left
unchanged, `dst` keeps its length, and every element of `dst` at an index
outside `[0, len)` has the value it had before the call (the destination start
index is not applied). -/
theorem c6_frame (m : Mem) (src_idx dst_idx len : Nat)
    (h1 : 1 ≤ len) (h2 : len ≤ INT_MAX)
    (hs : src_idx + len ≤ m.src.length) (hd : dst_idx + len ≤ m.dst.length) :
    ∃ m', hyper_iterator_cpy_UNMANAGED m src_idx dst_idx len = .ok m' ∧
      m'.src = m.src ∧ m'.dst.length = m.dst.length ∧
      ∀ i, len ≤ i → m'.dst[i]? = m.dst[i]? := by
  have hc := copied_upto_le len (num_threads len) (uneven_split len)
  refine ⟨_, hyper_iterator_cpy_eq m src_idx dst_idx len h1 h2 (by omega) (by omega),
    rfl, ?_, ?_⟩
  · exact length_after_copy m.src m.dst _ (by omega) (by omega)
  · intro i hi
    exact getElem?_from_copied m.src m.dst _ i (by omega) (by omega)

/-- The amended claim C6 at `src = [7]`, `dst = [0, 0]`, `src_idx = 0`,
`dst_idx = 1`, `len = 1`. -/
theorem c6_frame_witness :
    ∃ m', hyper_iterator_cpy_UNMANAGED { src := [7], dst := [0, 0] } 0 1 1 = .ok m' ∧
      m'.src = [7] ∧ m'.dst.length = ([0, 0] : List Int).length ∧
      ∀ i, 1 ≤ i → m'.dst[i]? = ([0, 0] : List Int)[i]? :=
  c6_frame { src := [7], dst := [0, 0] } 0 1 1 (by decide) (by decide) (by decide) (by decide)

/-- Claim C7 fails on the code: for `len = 0` the worker count is `1` and the
partition size `0`, as claimed, but line 36 then divides `len` by that size;
this holds whatever the worker count, and the call ends in a division by
zero for all buffers and start indices. -/
theorem c7_len_zero_divides_by_zero (m : Mem) (src_idx dst_idx : Nat) :
    num_threads 0 = 1 ∧ thread_def_partition 0 (num_threads 0) = 0 ∧
    (∀ n, obtuse_partition 0 (thread_def_partition 0 n) = .error .div_by_zero) ∧
    hyper_iterator_cpy_UNMANAGED m src_idx dst_idx 0 = .error .div_by_zero := by
  refine ⟨rfl, rfl, ?_, rfl⟩
  intro n
  simp [obtuse_partition, thread_def_partition]

/-- Claim C8: for `1 ≤ len ≤ INT_MAX` and buffers with at least `src_idx + len`
and `dst_idx + len` elements, the call returns, and a second call with the same
arguments on the memory the first one left returns that same memory. -/
theorem c8_idempotent (m : Mem) (src_idx dst_idx len : Nat)
    (h1 : 1 ≤ len) (h2 : len ≤ INT_MAX)
    (hs : src_idx + len ≤ m.src.length) (hd : dst_idx + len ≤ m.dst.length) :
    ∃ m', hyper_iterator_cpy_UNMANAGED m src_idx dst_idx len = .ok m' ∧
      hyper_iterator_cpy_UNMANAGED m' src_idx dst_idx len = .ok m' := by
  have hc := copied_upto_le len (num_threads len) (uneven_split len)
  have hfirst := hyper_iterator_cpy_eq m src_idx dst_idx len h1 h2 (by omega) (by omega)
  refine ⟨_, hfirst, ?_⟩
  have hlen := length_after_copy m.src m.dst
    (copied_upto len (num_threads len) (uneven_split len)) (by omega) (by omega)
  rw [hyper_iterator_cpy_eq _ src_idx dst_idx len h1 h2 (by show len ≤ m.src.length; omega)
    (by show len ≤ (m.src.take _ ++ m.dst.drop _).length; omega)]
  have hl : (m.src.take (copied_upto len (num_threads len) (uneven_split len))).length
      = copied_upto len (num_threads len) (uneven_split len) := by
    simp
    omega
  simp only [List.drop_left' hl]

/-- Claim C8 at `src = [1, 2, 3]`, `dst = [0, 0, 0]`, `len = 3`. -/
theorem c8_idempotent_witness :
    ∃ m', hyper_iterator_cpy_UNMANAGED { src := [1, 2, 3], dst := [0, 0, 0] } 0 0 3 = .ok m' ∧
      hyper_iterator_cpy_UNMANAGED m' 0 0 3 = .ok m' :=
  c8_idempotent { src := [1, 2, 3], dst := [0, 0, 0] } 0 0 3 (by decide) (by decide)
    (by decide) (by decide)

/-- Claim C9: the source start index is not applied; two calls that differ in
`src_idx` alone have the same outcome, and so the same final `dst`. -/
theorem c9_src_idx_not_applied (m : Mem) (dst_idx len a b : Nat) :
    hyper_iterator_cpy_UNMANAGED m a dst_idx len
      = hyper_iterator_cpy_UNMANAGED m b dst_idx len :=
  rfl

/-- Claim C10, as stated, fails: for `len = 10,000,000` the worker count is not
the cap `THREAD_CAP = 50`. -/
theorem c10_not_capped_counterexample : num_threads 10000000 ≠ THREAD_CAP := by
  decide

/-- Claim C10, amended: for `len = 10,000,000` the truncated logarithm is `16`
and the worker count is `32`, below the cap. -/
theorem c10_worker_count_ten_million :
    log_trunc 10000000 = 16 ∧ num_threads 10000000 = 32 := by
  decide

/-- Claim C11, as stated, fails: in the call with `src = [7]`, `dst = [0, 0]`,
`dst_idx = 1`, `len = 1` the one worker has partition offset `0` and count `1`,
and its write phase puts the snapshot at position `0` of `dst`; position
`dst_idx + 0 = 1` does not hold it. -/
theorem c11_dst_idx_not_added_counterexample :
    spawned [7] 1 = .ok [{ iso_src := [7], partition_rw := 1, offset := 0 }] ∧
    internal_thread_forker [7] [0, 0] 1 0 = .ok [7, 0] ∧
    hyper_iterator_cpy_UNMANAGED { src := [7], dst := [0, 0] } 0 1 1
      = .ok { src := [7], dst := [7, 0] } ∧
    ([7, 0] : List Int)[1 + 0 + 0]? ≠ ([7] : List Int)[0]? := by
  refine ⟨rfl, rfl, rfl, by decide⟩

/-- Claim C11, amended: for every partition of a valid call, with offset
`partition_offset` and count `partition_count`, the worker's write phase stores
the snapshot into `dst` at positions `partition_offset` to
`partition_offset + partition_count - 1` and leaves the other positions alone;
the destination start index is not added. -/
theorem c11_write_phase_position (m : Mem) (src_idx dst_idx len : Nat)
    (h1 : 1 ≤ len) (h2 : len ≤ INT_MAX)
    (hs : src_idx + len ≤ m.src.length) (hd : dst_idx + len ≤ m.dst.length) :
    ∃ js, spawned m.src len = .ok js ∧
      ∀ j ∈ js, ∀ d : List Int, d.length = m.dst.length →
        ∃ r, internal_thread_forker j.iso_src d j.partition_rw j.offset = .ok r ∧
          (∀ t, t < j.partition_rw →
            ∃ v, j.iso_src[t]? = some v ∧ r[j.offset + t]? = some v) ∧
          (∀ x, x < j.offset ∨ j.offset + j.partition_rw ≤ x → r[x]? = d[x]?) := by
  obtain ⟨js, hjs, -⟩ := spawned_eq m.src len h1 h2 (by omega)
  refine ⟨js, hjs, ?_⟩
  intro j hj d hdl
  obtain ⟨-, hb, hr, hsnap⟩ := spawned_job_facts m.src len h1 h2 (by omega) js hjs j hj
  have hcnt := partition_as_bytes_div j.partition_rw hb
  have hlen : j.iso_src.length = j.partition_rw := by
    rw [hsnap]
    simp only [List.length_take, List.length_drop]
    omega
  obtain ⟨r, hrk, -⟩ := memcpy_ok_of_bounds d j.iso_src j.offset 0
    (partition_as_bytes j.partition_rw) (by rw [hcnt]; omega)
  refine ⟨r, hrk, ?_, ?_⟩
  · intro t ht
    have hget := memcpy_getElem? _ _ _ _ _ _ hrk (j.offset + t)
    rw [hcnt, if_pos (by omega)] at hget
    have hidx : 0 + (j.offset + t - j.offset) = t := by omega
    rw [hidx] at hget
    rw [hget]
    exact ⟨j.iso_src[t], List.getElem?_eq_getElem (by omega), List.getElem?_eq_getElem (by omega)⟩
  · intro x hx
    have hget := memcpy_getElem? _ _ _ _ _ _ hrk x
    rw [hcnt, if_neg (by omega)] at hget
    exact hget

/-- The amended claim C11 at `src = [7]`, `dst = [0, 0]`, `dst_idx = 1`,
`len = 1`. -/
theorem c11_write_phase_position_witness :
    ∃ js, spawned [7] 1 = .ok js ∧
      ∀ j ∈ js, ∀ d : List Int, d.length = ([0, 0] : List Int).length →
        ∃ r, internal_thread_forker j.iso_src d j.partition_rw j.offset = .ok r ∧
          (∀ t, t < j.partition_rw →
            ∃ v, j.iso_src[t]? = some v ∧ r[j.offset + t]? = some v) ∧
          (∀ x, x < j.offset ∨ j.offset + j.partition_rw ≤ x → r[x]? = d[x]?) :=
  c11_write_phase_position { src := [7], dst := [0, 0] } 0 1 1 (by decide) (by decide)
    (by decide) (by decide)

/-- Claim C12: for `1 ≤ len ≤ INT_MAX`, with `w` the worker count and
`base = len / w`, the call starts `w` workers; worker `i` has offset `i * base`;
every worker but the last has `base` elements; and each partition's offset is
the previous offset plus the previous count, which is strictly larger. -/
theorem c12_partition_layout (src : List Int) (len : Nat)
    (h1 : 1 ≤ len) (h2 : len ≤ INT_MAX) (hs : len ≤ src.length) :
    ∃ js, spawned src len = .ok js ∧ js.length = num_threads len ∧
      (∀ i, i < num_threads len →
        ∃ c, (partitions js)[i]? = some (i * thread_def_partition len (num_threads len), c) ∧
          (i + 1 < num_threads len → c = thread_def_partition len (num_threads len))) ∧
      (∀ i, i + 1 < num_threads len →
        ∃ o c o1 c1, (partitions js)[i]? = some (o, c) ∧
          (partitions js)[i + 1]? = some (o1, c1) ∧ o1 = o + c ∧ o < o1) := by
  obtain ⟨js, hjs, hplan⟩ := spawned_eq src len h1 h2 hs
  have hb := thread_def_partition_pos len h1
  have hlen : js.length = num_threads len := by
    have h := congrArg List.length hplan
    rw [length_partition_plan] at h
    simpa [partitions] using h
  refine ⟨js, hjs, hlen, ?_, ?_⟩
  · intro i hi
    rw [hplan, getElem?_partition_plan _ _ _ i hi]
    refine ⟨_, rfl, ?_⟩
    intro hlt
    rw [if_neg (by omega)]
    rfl
  · intro i hi
    rw [hplan, getElem?_partition_plan _ _ _ i (by omega),
      getElem?_partition_plan _ _ _ (i + 1) hi]
    refine ⟨_, _, _, _, rfl, rfl, ?_, ?_⟩
    · rw [if_neg (by omega)]
      ring
    · unfold thread_def_partition at hb
      have : (i + 1) * (len / num_threads len)
          = i * (len / num_threads len) + len / num_threads len := by ring
      omega

/-- Claim C12 at `src = [1, 2, 3]`, `len = 3`. -/
theorem c12_partition_layout_witness :
    ∃ js, spawned [1, 2, 3] 3 = .ok js ∧ js.length = num_threads 3 ∧
      (∀ i, i < num_threads 3 →
        ∃ c, (partitions js)[i]? = some (i * thread_def_partition 3 (num_threads 3), c) ∧
          (i + 1 < num_threads 3 → c = thread_def_partition 3 (num_threads 3))) ∧
      (∀ i, i + 1 < num_threads 3 →
        ∃ o c o1 c1, (partitions js)[i]? = some (o, c) ∧
          (partitions js)[i + 1]? = some (o1, c1) ∧ o1 = o + c ∧ o < o1) :=
  c12_partition_layout [1, 2, 3] 3 (by decide) (by decide) (by decide)

/-- Claim C13: for `1 ≤ len ≤ INT_MAX` with `len` even and
`len / base_partition_size` odd, the last of the `w` workers has the partition
`((w - 1) * base, len - (w - 1) * base)`, the partition counts add up to `len`,
and after the call `dst[i] = src[i]` for every `i < len`. -/
theorem c13_uneven_split_copies_all (m : Mem) (src_idx dst_idx len : Nat)
    (h1 : 1 ≤ len) (h2 : len ≤ INT_MAX)
    (hs : len ≤ m.src.length) (hd : len ≤ m.dst.length)
    (he : len % 2 = 0)
    (ho : (len / thread_def_partition len (num_threads len)) % 2 = 1) :
    ∃ js m', spawned m.src len = .ok js ∧
      hyper_iterator_cpy_UNMANAGED m src_idx dst_idx len = .ok m' ∧
      (partitions js).length = num_threads len ∧
      (partitions js)[num_threads len - 1]?
        = some ((num_threads len - 1) * thread_def_partition len (num_threads len),
            len - (num_threads len - 1) * thread_def_partition len (num_threads len)) ∧
      ((partitions js).map Prod.snd).sum = len ∧
      ∀ i, i < len → ∃ v, m.src[i]? = some v ∧ m'.dst[i]? = some v := by
  have hu : uneven_split len = true := by
    simp [uneven_split, he, ho]
  have hn := num_threads_pos len
  obtain ⟨js, hjs, hplan⟩ := spawned_eq m.src len h1 h2 hs
  have hcu : copied_upto len (num_threads len) (uneven_split len) = len := by
    rw [copied_upto, if_pos hu]
  refine ⟨js, _, hjs, hyper_iterator_cpy_eq m src_idx dst_idx len h1 h2 hs hd, ?_, ?_, ?_, ?_⟩
  · rw [hplan, length_partition_plan]
  · rw [hplan, getElem?_partition_plan _ _ _ _ (by omega), if_pos ⟨rfl, hu⟩]
    rfl
  · rw [hplan, sum_counts_partition_plan _ _ _ hn, hcu]
  · intro i hi
    have hlt : i < m.src.length := by omega
    refine ⟨m.src[i], List.getElem?_eq_getElem hlt, ?_⟩
    show (m.src.take _ ++ m.dst.drop _)[i]? = _
    rw [getElem?_below_copied m.src m.dst _ i (by omega) (by omega),
      List.getElem?_eq_getElem hlt]

/-- Claim C13 at scenario A, `len = 10`: four workers, the last one with the
partition `(6, 4)`. -/
theorem c13_uneven_split_copies_all_witness :
    ∃ js m', spawned [1, 2, 3, 4, 5, 6, 7, 8, 9, 10] 10 = .ok js ∧
      hyper_iterator_cpy_UNMANAGED
        { src := [1, 2, 3, 4, 5, 6, 7, 8, 9, 10], dst := [0, 0, 0, 0, 0, 0, 0, 0, 0, 0] } 0 0 10
        = .ok m' ∧
      (partitions js).length = num_threads 10 ∧
      (partitions js)[num_threads 10 - 1]?
        = some ((num_threads 10 - 1) * thread_def_partition 10 (num_threads 10),
            10 - (num_threads 10 - 1) * thread_def_partition 10 (num_threads 10)) ∧
      ((partitions js).map Prod.snd).sum = 10 ∧
      ∀ i, i < 10 →
        ∃ v, ([1, 2, 3, 4, 5, 6, 7, 8, 9, 10] : List Int)[i]? = some v ∧ m'.dst[i]? = some v :=
  c13_uneven_split_copies_all
    { src := [1, 2, 3, 4, 5, 6, 7, 8, 9, 10], dst := [0, 0, 0, 0, 0, 0, 0, 0, 0, 0] } 0 0 10
    (by decide) (by decide) (by decide) (by decide) (by decide) (by decide)

/-- Claim C14: for `1 ≤ len ≤ INT_MAX` where the uneven-split condition is
false, each of the `w` workers has `base` elements, the counts add up to
`w * base = len - len mod w`, and each of the last `len mod w` indices of
`[0, len)` is in no partition and keeps its value in `dst`. -/
theorem c14_even_split_drops_tail (m : Mem) (src_idx dst_idx len : Nat)
    (h1 : 1 ≤ len) (h2 : len ≤ INT_MAX)
    (hs : len ≤ m.src.length) (hd : len ≤ m.dst.length)
    (hne : ¬ (len % 2 = 0 ∧ (len / thread_def_partition len (num_threads len)) % 2 = 1)) :
    ∃ js m', spawned m.src len = .ok js ∧
      hyper_iterator_cpy_UNMANAGED m src_idx dst_idx len = .ok m' ∧
      (partitions js).length = num_threads len ∧
      (∀ p ∈ partitions js, p.2 = thread_def_partition len (num_threads len)) ∧
      ((partitions js).map Prod.snd).sum
        = num_threads len * thread_def_partition len (num_threads len) ∧
      num_threads len * thread_def_partition len (num_threads len)
        = len - len % num_threads len ∧
      ∀ i, len - len % num_threads len ≤ i → i < len →
        (¬ ∃ p ∈ partitions js, p.1 ≤ i ∧ i < p.1 + p.2) ∧ m'.dst[i]? = m.dst[i]? := by
  have hu : uneven_split len = false := by
    by_cases he : len % 2 = 0
    · have ho : (len / thread_def_partition len (num_threads len)) % 2 = 0 := by
        have : ¬ (len / thread_def_partition len (num_threads len)) % 2 = 1 :=
          fun h => hne ⟨he, h⟩
        omega
      simp [uneven_split, he, ho]
    · simp [uneven_split, he]
  have hn := num_threads_pos len
  have hb : 1 ≤ len / num_threads len := thread_def_partition_pos len h1
  obtain ⟨js, hjs, hplan⟩ := spawned_eq m.src len h1 h2 hs
  have hcu : copied_upto len (num_threads len) (uneven_split len)
      = num_threads len * (len / num_threads len) := by
    rw [copied_upto, hu]
    rfl
  have hdm := Nat.div_add_mod len (num_threads len)
  refine ⟨js, _, hjs, hyper_iterator_cpy_eq m src_idx dst_idx len h1 h2 hs hd,
    ?_, ?_, ?_, ?_, ?_⟩
  · rw [hplan, length_partition_plan]
  · intro p hp
    rw [hplan] at hp
    obtain ⟨t, -, -, hc⟩ := mem_partition_plan _ _ _ _ hp
    rw [hc, hu]
    simp [thread_def_partition]
  · rw [hplan, sum_counts_partition_plan _ _ _ hn, hcu]
    rfl
  · unfold thread_def_partition
    omega
  · intro i hi hil
    constructor
    · rw [hplan, mem_partition_plan_iff len (num_threads len) (uneven_split len) hn hb i, hcu]
      omega
    · show (m.src.take _ ++ m.dst.drop _)[i]? = _
      rw [hcu]
      exact getElem?_from_copied m.src m.dst _ i (by omega) (by omega)

/-- Claim C14 at `src = [1, 2, 3]`, `dst = [0, 0, 0]`, `len = 3`: two workers of
one element each, index `2` left alone. -/
theorem c14_even_split_drops_tail_witness :
    ∃ js m', spawned [1, 2, 3] 3 = .ok js ∧
      hyper_iterator_cpy_UNMANAGED { src := [1, 2, 3], dst := [0, 0, 0] } 0 0 3 = .ok m' ∧
      (partitions js).length = num_threads 3 ∧
      (∀ p ∈ partitions js, p.2 = thread_def_partition 3 (num_threads 3)) ∧
      ((partitions js).map Prod.snd).sum = num_threads 3 * thread_def_partition 3 (num_threads 3) ∧
      num_threads 3 * thread_def_partition 3 (num_threads 3) = 3 - 3 % num_threads 3 ∧
      ∀ i, 3 - 3 % num_threads 3 ≤ i → i < 3 →
        (¬ ∃ p ∈ partitions js, p.1 ≤ i ∧ i < p.1 + p.2) ∧
          m'.dst[i]? = ([0, 0, 0] : List Int)[i]? :=
  c14_even_split_drops_tail { src := [1, 2, 3], dst := [0, 0, 0] } 0 0 3
    (by decide) (by decide) (by decide) (by decide) (by decide)

/-- Claim C15: for a valid call with `1 ≤ len ≤ INT_MAX`, the ranges written by
two different workers are disjoint, and applying the workers' write phases to
`dst` in any order (any permutation of the started threads) gives the `dst` that
the call returns, which is the one obtained in increasing partition order. -/
theorem c15_write_order_irrelevant (m : Mem) (src_idx dst_idx len : Nat)
    (h1 : 1 ≤ len) (h2 : len ≤ INT_MAX)
    (hs : len ≤ m.src.length) (hd : len ≤ m.dst.length) :
    ∃ js m', spawned m.src len = .ok js ∧
      hyper_iterator_cpy_UNMANAGED m src_idx dst_idx len = .ok m' ∧
      join_threads m.dst js = .ok m'.dst ∧
      (∀ x ∈ js, ∀ y ∈ js, x = y ∨
        x.offset + x.partition_rw ≤ y.offset ∨ y.offset + y.partition_rw ≤ x.offset) ∧
      ∀ js1 : List Job, js1.Perm js → join_threads m.dst js1 = .ok m'.dst := by
  obtain ⟨js, hjs, -⟩ := spawned_eq m.src len h1 h2 hs
  have hcall := hyper_iterator_cpy_eq m src_idx dst_idx len h1 h2 hs hd
  have hjoin : join_threads m.dst js
      = .ok (m.src.take (copied_upto len (num_threads len) (uneven_split len))
          ++ m.dst.drop (copied_upto len (num_threads len) (uneven_split len))) := by
    have h := hcall
    simp only [hyper_iterator_cpy_UNMANAGED, hjs] at h
    cases hj : join_threads m.dst js with
    | error e =>
      rw [hj] at h
      cases h
    | ok d =>
      rw [hj] at h
      simp only [Except.ok.injEq, Mem.mk.injEq, true_and] at h
      rw [h]
  refine ⟨js, _, hjs, hcall, hjoin, ?_, ?_⟩
  · intro x hx y hy
    exact spawned_disjoint m.src len h1 h2 hs js hjs x y hx hy
  · intro js1 hp
    rw [join_threads_perm m.src m.dst len h1 h2 hs js hjs js1 hp, hjoin]

/-- Claim C15 at scenario A, `len = 10`, four workers. -/
theorem c15_write_order_irrelevant_witness :
    ∃ js m', spawned [1, 2, 3, 4, 5, 6, 7, 8, 9, 10] 10 = .ok js ∧
      hyper_iterator_cpy_UNMANAGED
        { src := [1, 2, 3, 4, 5, 6, 7, 8, 9, 10], dst := [0, 0, 0, 0, 0, 0, 0, 0, 0, 0] } 0 0 10
        = .ok m' ∧
      join_threads [0, 0, 0, 0, 0, 0, 0, 0, 0, 0] js = .ok m'.dst ∧
      (∀ x ∈ js, ∀ y ∈ js, x = y ∨
        x.offset + x.partition_rw ≤ y.offset ∨ y.offset + y.partition_rw ≤ x.offset) ∧
      ∀ js1 : List Job, js1.Perm js →
        join_threads [0, 0, 0, 0, 0, 0, 0, 0, 0, 0] js1 = .ok m'.dst :=
  c15_write_order_irrelevant
    { src := [1, 2, 3, 4, 5, 6, 7, 8, 9, 10], dst := [0, 0, 0, 0, 0, 0, 0, 0, 0, 0] } 0 0 10
    (by decide) (by decide) (by decide) (by decide)

/-- Claim C16: for `1 ≤ len ≤ INT_MAX` the worker count does not exceed `len`,
the common partition size `len / worker_count` is at least `1`, and the
uneven-split test of line 36 yields a value, not a division by zero. -/
theorem c16_no_division_by_zero (len : Nat) (h1 : 1 ≤ len) (h2 : len ≤ INT_MAX) :
    num_threads len ≤ len ∧
    1 ≤ thread_def_partition len (num_threads len) ∧
    obtuse_partition len (thread_def_partition len (num_threads len))
      = .ok (uneven_split len) ∧
    obtuse_partition len (thread_def_partition len (num_threads len))
      ≠ .error .div_by_zero := by
  refine ⟨num_threads_le_len len h1, thread_def_partition_pos len h1,
    obtuse_partition_eq len h1, ?_⟩
  rw [obtuse_partition_eq len h1]
  intro h
  cases h

/-- Claim C16 at `len = 3`. -/
theorem c16_no_division_by_zero_witness :
    num_threads 3 ≤ 3 ∧
    1 ≤ thread_def_partition 3 (num_threads 3) ∧
    obtuse_partition 3 (thread_def_partition 3 (num_threads 3)) = .ok (uneven_split 3) ∧
    obtuse_partition 3 (thread_def_partition 3 (num_threads 3)) ≠ .error .div_by_zero :=
  c16_no_division_by_zero 3 (by decide) (by decide)

/-- Claim C17: for `1 ≤ len ≤ INT_MAX` the worker count is
`max 1 (2 * ⌊ln(len)⌋)`, it is at most `42`, and the value that line 29 compares
with `THREAD_CAP` is never above it, so the clamp to the cap is not applied. -/
theorem c17_cap_never_applied (len : Nat) (h1 : 1 ≤ len) (h2 : len ≤ INT_MAX) :
    (num_threads len : ℤ) = max 1 (2 * ⌊Real.log (len : ℝ)⌋) ∧
    num_threads len ≤ 42 ∧
    ¬ ((if log_trunc len * 2 = 0 then THREAD_MIN else log_trunc len * 2) > THREAD_CAP) ∧
    num_threads len = (if log_trunc len * 2 = 0 then THREAD_MIN else log_trunc len * 2) := by
  have hle := log_trunc_le len
  refine ⟨?_, num_threads_le_42 len, ?_, ?_⟩
  · rw [log_trunc_eq_floor_log len h1 h2, num_threads_eq, max_def]
    split_ifs <;> push_cast <;> omega
  · simp only [THREAD_MIN, THREAD_CAP]
    split_ifs <;> omega
  · rw [num_threads_eq]
    simp only [THREAD_MIN]
    split_ifs <;> omega

/-- Claim C17 at `len = INT_MAX`, where the worker count is `42`. -/
theorem c17_cap_never_applied_witness :
    ((num_threads INT_MAX : ℤ) = max 1 (2 * ⌊Real.log (INT_MAX : ℝ)⌋) ∧
    num_threads INT_MAX ≤ 42 ∧
    ¬ ((if log_trunc INT_MAX * 2 = 0 then THREAD_MIN else log_trunc INT_MAX * 2) > THREAD_CAP) ∧
    num_threads INT_MAX
      = (if log_trunc INT_MAX * 2 = 0 then THREAD_MIN else log_trunc INT_MAX * 2)) ∧
    num_threads INT_MAX = 42 :=
  ⟨c17_cap_never_applied INT_MAX (by decide) (by decide), by decide⟩

/-- Claim C19: for `1 ≤ len ≤ INT_MAX` and every thread the call starts, the
byte count `partition_rw * 8` is below `2 ^ 32`, so `partition_as_bytes` is that
product, it spans exactly `partition_rw` elements, and the snapshot holds
exactly `partition_rw` elements. -/
theorem c19_byte_count_fits (src : List Int) (len : Nat)
    (h1 : 1 ≤ len) (h2 : len ≤ INT_MAX) (hs : len ≤ src.length) :
    ∃ js, spawned src len = .ok js ∧
      ∀ j ∈ js, j.partition_rw * sizeof_long < UINT_MOD ∧
        partition_as_bytes j.partition_rw = j.partition_rw * sizeof_long ∧
        partition_as_bytes j.partition_rw / sizeof_long = j.partition_rw ∧
        j.iso_src.length = j.partition_rw := by
  obtain ⟨js, hjs, -⟩ := spawned_eq src len h1 h2 hs
  refine ⟨js, hjs, ?_⟩
  intro j hj
  obtain ⟨-, hb, hr, hsnap⟩ := spawned_job_facts src len h1 h2 hs js hjs j hj
  refine ⟨hb, ?_, partition_as_bytes_div j.partition_rw hb, ?_⟩
  · unfold partition_as_bytes
    exact Nat.mod_eq_of_lt hb
  · rw [hsnap]
    simp only [List.length_take, List.length_drop]
    omega

/-- Claim C19 at `src = [1, 2, 3]`, `len = 3`. -/
theorem c19_byte_count_fits_witness :
    ∃ js, spawned [1, 2, 3] 3 = .ok js ∧
      ∀ j ∈ js, j.partition_rw * sizeof_long < UINT_MOD ∧
        partition_as_bytes j.partition_rw = j.partition_rw * sizeof_long ∧
        partition_as_bytes j.partition_rw / sizeof_long = j.partition_rw ∧
        j.iso_src.length = j.partition_rw :=
  c19_byte_count_fits [1, 2, 3] 3 (by decide) (by decide) (by decide)

end Note
